import Mathlib

/-!
Verification of the optrack transaction-to-position reconstruction engine
(`optrack/options.py`), shallowly embedded in Lean 4.

Modelling conventions:
* Python `Decimal` values are modelled as exact rationals `ℚ`.  Python's
  Decimal context rounds every operation to 28 significant digits; on the
  money-sized values this program manipulates the operations are exact, and
  the embedding idealises them as exact rational arithmetic.
* Python exceptions are modelled with `Option`/`Except`: a `none`/`.error`
  result marks the execution path on which the source raises.
* `datetime` values are modelled as a calendar date plus a seconds-of-day
  counter; `str.isnumeric` is modelled on ASCII digit strings, which is what
  the broker export contains.
-/

namespace Optrack

deriving instance DecidableEq for Except

/-! ### Decimal strings

Python `Decimal` values travel through the store as strings (`str(Decimal)`
when writing, the `Decimal` constructor when reading back).  `fmtDec` models
the printing of a decimal value and `parseDec` models the `Decimal`
constructor on plain decimal literals (optional sign, digits, at most one
point); on any other input the constructor raises, modelled as `none`. -/

/-- The character for a single decimal digit. -/
def digitChar (d : ℕ) : Char := Char.ofNat (48 + d)

/-- Numeric value of a digit character. -/
def charVal (c : Char) : ℕ := c.toNat - 48

/-- Little-endian base-10 digits, with fuel for structural recursion. -/
def digitsGo : ℕ → ℕ → List ℕ
  | 0, _ => []
  | _ + 1, 0 => []
  | fuel + 1, n + 1 => (n + 1) % 10 :: digitsGo fuel ((n + 1) / 10)

/-- Little-endian base-10 digits of a natural number. -/
def digits10 (n : ℕ) : List ℕ := digitsGo n n

/-- Digit string of a natural number, most significant digit first. -/
def fmtNat (n : ℕ) : List Char :=
  if n = 0 then [Char.ofNat 48] else ((digits10 n).map digitChar).reverse

/-- Digit string of `n` left-padded with zeros to width `w`. -/
def fmtNatPad (w n : ℕ) : List Char :=
  List.replicate (w - (fmtNat n).length) (Char.ofNat 48) ++ fmtNat n

/-- Value of a big-endian digit string (junk on non-digits). -/
def parseNatCore (cs : List Char) : ℕ :=
  cs.foldl (fun a c => 10 * a + charVal c) 0

/-- Largest `k` with `p ^ k ∣ n` (for `2 ≤ p`, `n ≠ 0`), by fuelled recursion. -/
def pvalAux : ℕ → ℕ → ℕ → ℕ
  | 0, _, _ => 0
  | fuel + 1, p, n =>
    if 2 ≤ p ∧ n ≠ 0 ∧ n % p = 0 then pvalAux fuel p (n / p) + 1 else 0

/-- Multiplicity of `p` in `n`. -/
def pval (p n : ℕ) : ℕ := pvalAux n p n

/-- Number of decimal places needed to print the rational with denominator `d`. -/
def eExp (d : ℕ) : ℕ := max (pval 2 d) (pval 5 d)

/-- A rational that is exactly representable as a decimal numeral, i.e. a
possible value of a Python `Decimal`. -/
def IsDec (q : ℚ) : Prop := ∃ a b : ℕ, q.den = 2 ^ a * 5 ^ b

/-- Unsigned decimal numeral with scaled significand `m` and `e` decimal
places, i.e. the numeral denoting `m / 10 ^ e`. -/
def fmtDecM (m e : ℕ) : List Char :=
  if e = 0 then fmtNat m
  else fmtNat (m / 10 ^ e) ++ Char.ofNat 46 :: fmtNatPad e (m % 10 ^ e)

/-- Decimal numeral of a rational value, modelling `str` on a Python
`Decimal` holding that value (with the minimal exponent). -/
def fmtDec (q : ℚ) : List Char :=
  (if q.num < 0 then [Char.ofNat 45] else []) ++
    fmtDecM (q.num.natAbs * 10 ^ eExp q.den / q.den) (eExp q.den)

/-- Unsigned decimal numeral: digits with at most one point, at least one
digit in total. -/
def parseUDec (cs : List Char) : Option ℚ :=
  let i := cs.takeWhile (fun c => c ≠ Char.ofNat 46)
  match cs.dropWhile (fun c => c ≠ Char.ofNat 46) with
  | [] =>
    if i ≠ [] ∧ i.all Char.isDigit then some ((parseNatCore i : ℕ) : ℚ) else none
  | _ :: f =>
    if (i ++ f) ≠ [] ∧ (i ++ f).all Char.isDigit then
      some (((parseNatCore i * 10 ^ f.length + parseNatCore f : ℕ) : ℚ) / ((10 ^ f.length : ℕ) : ℚ))
    else none

/-- The `Decimal` constructor restricted to plain decimal literals: optional
sign, then an unsigned decimal numeral; `none` models the raised
`InvalidOperation`.  The real constructor also accepts forms this program
never produces (exponent notation, surrounding whitespace, underscore
grouping, NaN/Infinity), so a `some` result is always faithful to the
source while `none` is relied on only at inputs the real constructor
rejects too (such as the stored quantity text `"None"`). -/
def parseDec (cs : List Char) : Option ℚ :=
  match cs with
  | [] => none
  | c :: rest =>
    if c = Char.ofNat 45 then (parseUDec rest).map Neg.neg
    else if c = Char.ofNat 43 then parseUDec rest
    else parseUDec cs

/-! ### Dates and times

Python `datetime` values in this program carry a calendar date (from
`strptime` on `MM/DD/YYYY`) plus a whole-second offset added by
`load_csv`'s same-day disambiguation.  We model them as the calendar
fields plus a seconds counter (`timedelta` addition on these small offsets
never crosses a day boundary in practice, so plain addition on the counter
is used). -/

structure DateTime where
  year : ℕ
  month : ℕ
  day : ℕ
  secs : ℕ
  deriving DecidableEq

/-- Day count of a month, with leap years, as `datetime` validates. -/
def daysInMonth (y m : ℕ) : ℕ :=
  if m = 2 then
    if y % 4 = 0 ∧ (y % 100 ≠ 0 ∨ y % 400 = 0) then 29 else 28
  else if m = 4 ∨ m = 6 ∨ m = 9 ∨ m = 11 then 30
  else 31

/-- Whether `sep` is a prefix of the text. -/
def isSeqPrefix : List Char → List Char → Bool
  | [], _ => true
  | _ :: _, [] => false
  | c :: cs, x :: xs => c = x && isSeqPrefix cs xs

/-- The worker of `splitOnSeq`, with fuel for structural recursion. -/
def splitGo (sep : List Char) : ℕ → List Char → List Char → List (List Char)
  | _, [], acc => [acc.reverse]
  | 0, rest, acc => [acc.reverse ++ rest]
  | fuel + 1, x :: xs, acc =>
    if isSeqPrefix sep (x :: xs) then
      acc.reverse :: splitGo sep fuel (List.drop (sep.length - 1) xs) []
    else splitGo sep fuel xs (x :: acc)

/-- Python `str.split(sep)` on character lists: split at every
non-overlapping occurrence of the (non-empty) separator, left to right. -/
def splitOnSeq (sep s : List Char) : List (List Char) :=
  splitGo sep s.length s []

/-- Digits-only field of bounded width, as `strptime` accepts for one
directive. -/
def parseField (minW maxW : ℕ) (cs : List Char) : Option ℕ :=
  if minW ≤ cs.length ∧ cs.length ≤ maxW ∧ cs.all Char.isDigit then
    some (parseNatCore cs)
  else none

/-- Model of `datetime.strptime(s, "%m/%d/%Y")`: month and day of 1-2
digits, year of up to 4 digits, validated against the calendar.  `none`
models the raised `ValueError`. -/
def parseDateMDY (s : String) : Option DateTime :=
  match splitOnSeq [Char.ofNat 47] s.data with
  | [ms, ds, ys] =>
    match parseField 1 2 ms, parseField 1 2 ds, parseField 1 4 ys with
    | some m, some d, some y =>
      if 1 ≤ m ∧ m ≤ 12 ∧ 1 ≤ d ∧ d ≤ daysInMonth y m ∧ 1 ≤ y then
        some ⟨y, m, d, 0⟩
      else none
    | _, _, _ => none
  | _ => none

/-- Model of `strftime("%m/%d/%Y")`. -/
def fmtDateMDY (d : DateTime) : String :=
  String.mk (fmtNatPad 2 d.month) ++ "/" ++ String.mk (fmtNatPad 2 d.day) ++ "/"
    ++ String.mk (fmtNatPad 4 d.year)

/-- Model of `str(datetime)`, `"YYYY-MM-DD HH:MM:SS"` (used inside the
natural key). -/
def fmtDateTime (d : DateTime) : String :=
  String.mk (fmtNatPad 4 d.year) ++ "-" ++ String.mk (fmtNatPad 2 d.month) ++ "-"
    ++ String.mk (fmtNatPad 2 d.day) ++ " " ++ String.mk (fmtNatPad 2 (d.secs / 3600))
    ++ ":" ++ String.mk (fmtNatPad 2 (d.secs % 3600 / 60)) ++ ":"
    ++ String.mk (fmtNatPad 2 (d.secs % 60))

/-- Calendar day of a timestamp, modelling `datetime.date()`. -/
def dayKey (d : DateTime) : ℕ × ℕ × ℕ := (d.year, d.month, d.day)

/-- Chronological comparison of timestamps (lexicographic on date then
seconds). -/
def dtLE (a b : DateTime) : Bool :=
  if a.year ≠ b.year then a.year < b.year
  else if a.month ≠ b.month then a.month < b.month
  else if a.day ≠ b.day then a.day < b.day
  else a.secs ≤ b.secs

/-! ### Transaction actions (`Action` enum, `options.py` lines 45-118) -/

inductive Action where
  | BUY_TO_OPEN | BUY_TO_CLOSE | SELL_TO_CLOSE | SELL_TO_OPEN
  | BUY | SELL | JOURNALED_SHARES | JOURNAL | NRA_TAX_ADJ
  | CASH_DIVIDEND | QUALIFIED_DIVIDEND | NON_QUALIFIED_DIV | CREDIT_INTEREST
  | WIRE_FUNDS | MISC_CASH_ENTRY | SERVICE_FEE | MONEYLINK_TRANSFER
  | MONEYLINK_DEPOSIT | MONEYLINK_ADJ | STOCK_PLAN_ACTIVITY | REINVEST_SHARES
  | QUAL_DIV_REINVEST | REINVEST_DIVIDEND | FOREIGN_TAX_PAID | EXPIRED
  | MANDATORY_REORG_EXC | SPIN_OFF | FUNDS_RECEIVED | CASH_IN_LIEU
  | STOCK_SPLIT | CASH_STOCK_MERGER
  deriving DecidableEq

namespace Action

/-- The Python enum member name, as stored by `import_csv`
(`insert["action"].name`). -/
def pyName : Action → String
  | BUY_TO_OPEN => "BUY_TO_OPEN"
  | BUY_TO_CLOSE => "BUY_TO_CLOSE"
  | SELL_TO_CLOSE => "SELL_TO_CLOSE"
  | SELL_TO_OPEN => "SELL_TO_OPEN"
  | BUY => "BUY"
  | SELL => "SELL"
  | JOURNALED_SHARES => "JOURNALED_SHARES"
  | JOURNAL => "JOURNAL"
  | NRA_TAX_ADJ => "NRA_TAX_ADJ"
  | CASH_DIVIDEND => "CASH_DIVIDEND"
  | QUALIFIED_DIVIDEND => "QUALIFIED_DIVIDEND"
  | NON_QUALIFIED_DIV => "NON_QUALIFIED_DIV"
  | CREDIT_INTEREST => "CREDIT_INTEREST"
  | WIRE_FUNDS => "WIRE_FUNDS"
  | MISC_CASH_ENTRY => "MISC_CASH_ENTRY"
  | SERVICE_FEE => "SERVICE_FEE"
  | MONEYLINK_TRANSFER => "MONEYLINK_TRANSFER"
  | MONEYLINK_DEPOSIT => "MONEYLINK_DEPOSIT"
  | MONEYLINK_ADJ => "MONEYLINK_ADJ"
  | STOCK_PLAN_ACTIVITY => "STOCK_PLAN_ACTIVITY"
  | REINVEST_SHARES => "REINVEST_SHARES"
  | QUAL_DIV_REINVEST => "QUAL_DIV_REINVEST"
  | REINVEST_DIVIDEND => "REINVEST_DIVIDEND"
  | FOREIGN_TAX_PAID => "FOREIGN_TAX_PAID"
  | EXPIRED => "EXPIRED"
  | MANDATORY_REORG_EXC => "MANDATORY_REORG_EXC"
  | SPIN_OFF => "SPIN_OFF"
  | FUNDS_RECEIVED => "FUNDS_RECEIVED"
  | CASH_IN_LIEU => "CASH_IN_LIEU"
  | STOCK_SPLIT => "STOCK_SPLIT"
  | CASH_STOCK_MERGER => "CASH_STOCK_MERGER"

/-- All members of the enum. -/
def allActions : List Action :=
  [BUY_TO_OPEN, BUY_TO_CLOSE, SELL_TO_CLOSE, SELL_TO_OPEN, BUY, SELL,
   JOURNALED_SHARES, JOURNAL, NRA_TAX_ADJ, CASH_DIVIDEND, QUALIFIED_DIVIDEND,
   NON_QUALIFIED_DIV, CREDIT_INTEREST, WIRE_FUNDS, MISC_CASH_ENTRY, SERVICE_FEE,
   MONEYLINK_TRANSFER, MONEYLINK_DEPOSIT, MONEYLINK_ADJ, STOCK_PLAN_ACTIVITY,
   REINVEST_SHARES, QUAL_DIV_REINVEST, REINVEST_DIVIDEND, FOREIGN_TAX_PAID,
   EXPIRED, MANDATORY_REORG_EXC, SPIN_OFF, FUNDS_RECEIVED, CASH_IN_LIEU,
   STOCK_SPLIT, CASH_STOCK_MERGER]

/-- Lookup of an enum member by name, modelling `Action[s]`.  `none` models
the raised `KeyError`. -/
def ofName (s : String) : Option Action :=
  allActions.find? (fun a => a.pyName = s)

/-- The `.value` of each member rendered by an f-string (the two tuple-valued
members print as tuples), used only inside the natural key. -/
def valueStr : Action → String
  | BUY_TO_OPEN => "0"
  | BUY_TO_CLOSE => "1"
  | SELL_TO_CLOSE => "2"
  | SELL_TO_OPEN => "3"
  | BUY => "4"
  | SELL => "5"
  | JOURNALED_SHARES => "6"
  | JOURNAL => "7"
  | NRA_TAX_ADJ => "8"
  | CASH_DIVIDEND => "9"
  | QUALIFIED_DIVIDEND => "10"
  | NON_QUALIFIED_DIV => "11"
  | CREDIT_INTEREST => "12"
  | WIRE_FUNDS => "13"
  | MISC_CASH_ENTRY => "14"
  | SERVICE_FEE => "15"
  | MONEYLINK_TRANSFER => "16"
  | MONEYLINK_DEPOSIT => "17"
  | MONEYLINK_ADJ => "18"
  | STOCK_PLAN_ACTIVITY => "19"
  | REINVEST_SHARES => "20"
  | QUAL_DIV_REINVEST => "21"
  | REINVEST_DIVIDEND => "22"
  | FOREIGN_TAX_PAID => "23"
  | EXPIRED => "24"
  | MANDATORY_REORG_EXC => "25"
  | SPIN_OFF => "26"
  | FUNDS_RECEIVED => "27"
  | CASH_IN_LIEU => "28"
  | STOCK_SPLIT => "(29,)"
  | CASH_STOCK_MERGER => "(30,)"

/-- The broker-string-to-kind table of `Action.from_string`.  An unknown
string raises `ValueError`, modelled as `none`. -/
def from_string (s : String) : Option Action :=
  (([
    ("Buy to Open", BUY_TO_OPEN),
    ("Buy to Close", BUY_TO_CLOSE),
    ("Sell to Open", SELL_TO_OPEN),
    ("Sell to Close", SELL_TO_CLOSE),
    ("Buy", BUY),
    ("Sell", SELL),
    ("Journaled Shares", JOURNALED_SHARES),
    ("NRA Tax Adj", NRA_TAX_ADJ),
    ("Qualified Dividend", QUALIFIED_DIVIDEND),
    ("Non-Qualified Div", NON_QUALIFIED_DIV),
    ("Reinvest Shares", REINVEST_SHARES),
    ("Qual Div Reinvest", QUAL_DIV_REINVEST),
    ("Journal", JOURNAL),
    ("Credit Interest", CREDIT_INTEREST),
    ("Wire Funds", WIRE_FUNDS),
    ("Misc Cash Entry", MISC_CASH_ENTRY),
    ("Service Fee", SERVICE_FEE),
    ("MoneyLink Deposit", MONEYLINK_DEPOSIT),
    ("MoneyLink Transfer", MONEYLINK_TRANSFER),
    ("MoneyLink Adj", MONEYLINK_ADJ),
    ("Stock Plan Activity", STOCK_PLAN_ACTIVITY),
    ("Foreign Tax Paid", FOREIGN_TAX_PAID),
    ("Expired", EXPIRED),
    ("Mandatory Reorg Exc", MANDATORY_REORG_EXC),
    ("Spin-off", SPIN_OFF),
    ("Funds Received", FUNDS_RECEIVED),
    ("Cash Dividend", CASH_DIVIDEND),
    ("Cash In Lieu", CASH_IN_LIEU),
    ("Reinvest Dividend", REINVEST_DIVIDEND),
    ("Stock Split", STOCK_SPLIT),
    ("Cash/Stock Merger", CASH_STOCK_MERGER)
  ] : List (String × Action)).find? (fun e => e.1 = s)).map Prod.snd

end Action

/-! ### Price parsing and formatting (`options.py` lines 16-33) -/

/-- Error kinds raised inside row parsing: `.assertErr` is a failed
`assert` (`AssertionError`, logged and re-raised by `load_csv`),
`.valueErr` is a `ValueError` (caught and logged by `load_csv`), and
`.otherErr` covers exceptions `load_csv` does not catch
(`decimal.InvalidOperation`, `IndexError`). -/
inductive PErr where
  | valueErr | assertErr | otherErr
  deriving DecidableEq

/-- The body of `parse_price` after the sign has been stripped: the text
must start with `$` (asserted, `AssertionError` on failure), the remainder
feeds the `Decimal` constructor; an empty text is the `s[0]` `IndexError`. -/
def parsePriceMag (s : List Char) : Except PErr ℚ :=
  match s with
  | [] => .error .otherErr
  | c :: rest =>
    if c = Char.ofNat 36 then
      match parseDec rest with
      | some d => .ok d
      | none => .error .otherErr
    else .error .assertErr

/-- Model of `parse_price` (`options.py` lines 16-25): empty string parses
to `0`; an optional leading minus flips the sign; the remainder must start
with `$` and the text after it feeds the `Decimal` constructor. -/
def parse_price (s : List Char) : Except PErr ℚ :=
  if s = [] then .ok 0
  else if s.head? = some (Char.ofNat 45) then (parsePriceMag s.tail).map (fun d => d * -1)
  else (parsePriceMag s).map (fun d => d * 1)

/-- Model of `format_price` (`options.py` lines 28-33). -/
def format_price (p : ℚ) : List Char :=
  (if p < 0 then [Char.ofNat 45] else []) ++ Char.ofNat 36 :: fmtDec (if p < 0 then -p else p)

/-! ### CSVLine (`options.py` lines 121-198) -/

structure CSVLine where
  str_date : String
  date : DateTime
  action : Action
  symbol : String
  desc : String
  quantity : Option ℚ
  price : ℚ
  fees : ℚ
  amount : ℚ
  deriving DecidableEq

/-- Field access `line[i]`; `.otherErr` models the uncaught `IndexError`. -/
def fieldAt (line : List String) (i : ℕ) : Except PErr String :=
  match line.get? i with
  | some s => .ok s
  | none => .error .otherErr

/-- The `"as of"` date-qualifier handling at the top of
`init_from_str_array`: when the substring occurs, the text after the first
`"as of "` replaces the field. -/
def stripAsOf (s : String) : Except PErr String :=
  if (splitOnSeq ("as of".data) s.data).length ≥ 2 then
    match (splitOnSeq ("as of ".data) s.data).get? 1 with
    | some part => .ok (String.mk part)
    | none => .error .otherErr
  else .ok s

/-- Model of `CSVLine.init_from_str_array` (`options.py` lines 162-187),
with the same evaluation order and error classes as the source. -/
def init_from_str_array (line : List String) : Except PErr CSVLine := do
  let f0 ← fieldAt line 0
  let s0 ← stripAsOf f0
  let date ← match parseDateMDY s0 with
    | some d => Except.ok d
    | none => Except.error PErr.valueErr
  let f1 ← fieldAt line 1
  let action ← match Action.from_string f1 with
    | some a => Except.ok a
    | none => Except.error PErr.valueErr
  let symbol ← fieldAt line 2
  let desc ← fieldAt line 3
  let f4 ← fieldAt line 4
  let quantity ← if f4.length > 0 then
      match parseDec f4.toList with
      | some q => Except.ok (some q)
      | none => Except.error PErr.otherErr
    else Except.ok (none : Option ℚ)
  let f5 ← fieldAt line 5
  let price ← parse_price f5.toList
  let f6 ← fieldAt line 6
  let fees ← parse_price f6.toList
  let f7 ← fieldAt line 7
  let amount ← parse_price f7.toList
  Except.ok ⟨s0, date, action, symbol, desc, quantity, price, fees, amount⟩

/-- Model of `CSVLine.is_option`. -/
def CSVLine.is_option (l : CSVLine) : Bool :=
  l.action = Action.BUY_TO_OPEN ∨ l.action = Action.BUY_TO_CLOSE ∨
    l.action = Action.SELL_TO_OPEN ∨ l.action = Action.SELL_TO_CLOSE

/-- An f-string rendering of the optional quantity (`None` prints as the
text `"None"`). -/
def quantityStr (q : Option ℚ) : String :=
  match q with
  | some v => String.mk (fmtDec v)
  | none => "None"

/-- Model of `CSVLine.key`, the derived natural key. -/
def CSVLine.key (l : CSVLine) : String :=
  fmtDateTime l.date ++ ":" ++ l.action.valueStr ++ "##" ++ quantityStr l.quantity
    ++ "_" ++ l.symbol ++ "@" ++ String.mk (fmtDec l.price)

/-! ### Leg and Position (`options.py` lines 201-288) -/

inductive Strategy where
  | CUSTOM | SHORT_PUT | SHORT_CALL | LONG_PUT | LONG_CALL
  deriving DecidableEq

/-- Model of `wavg` (`options.py` lines 36-42): quantity-weighted average
price. -/
def wavg (lst : List (ℚ × ℚ)) : ℚ :=
  let p := lst.foldl (fun acc a => (acc.1 + a.1 * a.2, acc.2 + a.2)) ((0 : ℚ), (0 : ℚ))
  p.1 / p.2

structure Leg where
  symbol : String
  lines : List CSVLine := []
  deriving DecidableEq

/-- The loop of `Leg.quantity_sum`; `none` models the `TypeError` raised
when a summed line has no quantity. -/
def qsumGo (acc : ℚ) : List CSVLine → Option ℚ
  | [] => some acc
  | cl :: rest =>
    if cl.action = Action.BUY_TO_OPEN ∨ cl.action = Action.BUY_TO_CLOSE then
      match cl.quantity with
      | some q => qsumGo (acc + q) rest
      | none => none
    else if cl.action = Action.SELL_TO_OPEN ∨ cl.action = Action.SELL_TO_CLOSE then
      match cl.quantity with
      | some q => qsumGo (acc - q) rest
      | none => none
    else qsumGo acc rest

/-- Model of `Leg.quantity_sum` (`options.py` lines 218-226). -/
def Leg.quantity_sum (l : Leg) : Option ℚ := qsumGo 0 l.lines

/-- Model of `Leg.is_closed` (`options.py` lines 242-243). -/
def Leg.is_closed (l : Leg) : Option Bool :=
  l.quantity_sum.map (fun q => decide (q = 0))

/-- Open-kind actions collected by `open_price_avg`. -/
def isOpenAction (a : Action) : Bool :=
  a = Action.SELL_TO_OPEN ∨ a = Action.BUY_TO_OPEN

/-- Close-kind actions collected by `close_price_avg`. -/
def isCloseAction (a : Action) : Bool :=
  a = Action.SELL_TO_CLOSE ∨ a = Action.BUY_TO_CLOSE

/-- The `(price, quantity)` pairs of the lines kept by `keep`; `none`
models the `TypeError` raised inside `wavg` when a kept line has no
quantity (the source appends the pair and crashes on the first missing
quantity once `wavg` multiplies, which fails on the same inputs). -/
def optPairs (keep : Action → Bool) : List CSVLine → Option (List (ℚ × ℚ))
  | [] => some []
  | cl :: rest =>
    if keep cl.action then
      match cl.quantity with
      | some q => (optPairs keep rest).map (fun ps => (cl.price, q) :: ps)
      | none => none
    else optPairs keep rest

/-- Model of `Leg.open_price_avg` (`options.py` lines 228-233). -/
def Leg.open_price_avg (l : Leg) : Option (Option ℚ) :=
  (optPairs isOpenAction l.lines).map
    (fun opens => if opens.length > 0 then some (wavg opens) else none)

/-- Model of `Leg.close_price_avg` (`options.py` lines 235-240). -/
def Leg.close_price_avg (l : Leg) : Option (Option ℚ) :=
  (optPairs isCloseAction l.lines).map
    (fun close => if close.length > 0 then some (wavg close) else none)

structure Position where
  strategy : Strategy
  legs : List Leg := []
  deriving DecidableEq

/-- The leg-merging loop of `Position.add_leg`: lines of an incoming leg
are appended to the first existing leg with the same symbol, otherwise the
leg itself is appended. -/
def addLegAux : List Leg → Leg → List Leg
  | [], leg => [leg]
  | sl :: rest, leg =>
    if sl.symbol = leg.symbol then { sl with lines := sl.lines ++ leg.lines } :: rest
    else sl :: addLegAux rest leg

/-- Model of `Position.add_leg` (`options.py` lines 254-264). -/
def Position.add_leg (p : Position) (leg : Leg) : Position :=
  { p with legs := addLegAux p.legs leg }

/-- Model of `Position.is_closed` (`options.py` lines 251-252). -/
def Position.is_closed (p : Position) : Option Bool :=
  (p.legs.mapM Leg.is_closed).map (fun bs => bs.all id)

/-! ### The transaction store and `import_csv` (`options.py` lines 335-374)

The MongoDB collection is modelled as an association list from `_id` to the
stored document, in insertion order.  The `$setOnInsert` payload (all record
fields plus `insertion_date` and the derived option fields) lives in
`TransDoc`; `$set` touches only `last_update_date`. -/

structure TransDoc where
  str_date : String
  date : DateTime
  action : String
  symbol : String
  desc : String
  quantity : String
  price : String
  fees : String
  amount : String
  insertion_date : DateTime
  underlying : Option String := none
  expiration : Option String := none
  strike : Option String := none
  option_type : Option String := none
  deriving DecidableEq

structure StoredRec where
  payload : TransDoc
  last_update_date : DateTime
  deriving DecidableEq

/-- The transactions collection: `_id`-keyed documents in insertion order. -/
abbrev Store : Type := List (String × StoredRec)

/-- Actions persisted by `import_csv`; all others are skipped. -/
def storedActions : List Action :=
  [Action.BUY_TO_OPEN, Action.BUY_TO_CLOSE, Action.SELL_TO_OPEN,
   Action.SELL_TO_CLOSE, Action.EXPIRED, Action.BUY, Action.SELL]

/-- The first four space-separated tokens of an option symbol; `none`
models the `IndexError` when there are fewer than 4. -/
def optionTokens (sym : String) : Option (List Char × List Char × List Char × List Char) :=
  match (splitOnSeq [Char.ofNat 32] sym.data).get? 0,
      (splitOnSeq [Char.ofNat 32] sym.data).get? 1,
      (splitOnSeq [Char.ofNat 32] sym.data).get? 2,
      (splitOnSeq [Char.ofNat 32] sym.data).get? 3 with
  | some t0, some t1, some t2, some t3 => some (t0, t1, t2, t3)
  | _, _, _, _ => none

/-- The `$setOnInsert` document built by one iteration of `import_csv`;
`none` models the `IndexError` when an option line's symbol has fewer than
4 space-separated tokens. -/
def buildDoc (l : CSVLine) (now : DateTime) : Option TransDoc :=
  let base : TransDoc :=
    { str_date := l.str_date, date := l.date, action := l.action.pyName,
      symbol := l.symbol, desc := l.desc, quantity := quantityStr l.quantity,
      price := String.mk (format_price l.price),
      fees := String.mk (format_price l.fees),
      amount := String.mk (format_price l.amount), insertion_date := now }
  if l.is_option then
    match optionTokens l.symbol with
    | some (t0, t1, t2, t3) =>
      some { base with
              underlying := some (String.mk t0)
              expiration := some (String.mk t1)
              strike := some (String.mk t2)
              option_type := some (if t3 = "P".data then "PUT" else "CALL") }
    | none => none
  else some base

/-- The single-key upsert (`update_one` with `upsert=True`): an existing
`_id` only gets its `last_update_date` refreshed, a new `_id` is inserted
with the full payload. -/
def upsert : Store → String → TransDoc → DateTime → Store
  | [], k, payload, now => [(k, ⟨payload, now⟩)]
  | (k', r) :: rest, k, payload, now =>
    if k' = k then (k', { r with last_update_date := now }) :: rest
    else (k', r) :: upsert rest k payload now

/-- The loop of `import_csv`: `clock i` is the value `datetime.utcnow()`
returns for the `i`-th persisted line; `none` models an uncaught exception
from `buildDoc`. -/
def importGo (clock : ℕ → DateTime) : ℕ → Store → List CSVLine → Option Store
  | _, store, [] => some store
  | i, store, l :: rest =>
    if l.action ∈ storedActions then
      match buildDoc l (clock i) with
      | none => none
      | some payload => importGo clock (i + 1) (upsert store l.key payload (clock i)) rest
    else importGo clock i store rest

/-- Model of `import_csv` (`options.py` lines 335-374). -/
def import_csv (clock : ℕ → DateTime) (lines : List CSVLine) (store : Store) : Option Store :=
  importGo clock 0 store lines

/-- The stored `_id`s, in order. -/
def storeKeys (s : Store) : List String := s.map Prod.fst

/-- A store with the mutable `last_update_date` stripped: the `_id`s and
immutable payloads, in order. -/
def stripStore (s : Store) : List (String × TransDoc) :=
  s.map (fun e => (e.1, e.2.payload))

/-! ### `load_csv` (`options.py` lines 291-332) -/

/-- Model of `str.isnumeric` on the ASCII fields of the export. -/
def isNumericStr (s : String) : Bool :=
  s.length > 0 ∧ s.toList.all Char.isDigit

/-- Outcome of one row of the `load_csv` loop. -/
inductive RowResult where
  | skipped
  | parsed (cl : CSVLine)
  | rowError
  | assertAbort
  | otherAbort
  deriving DecidableEq

/-- How `load_csv`'s handlers classify the outcome of
`init_from_str_array`: a `ValueError` is logged and the row dropped, an
`AssertionError` is logged and re-raised, anything else propagates. -/
def classify (r : Except PErr CSVLine) : RowResult :=
  match r with
  | .ok cl => .parsed cl
  | .error .valueErr => .rowError
  | .error .assertErr => .assertAbort
  | .error .otherErr => .otherAbort

/-- One iteration of the row loop of `load_csv` (lines 298-317): empty and
one-field rows are skipped, the row is truncated to 8 fields, an
all-non-numeric row in the first two rows is a skipped header, a
`"Transactions Total"` first field is a skipped footer, anything else is
parsed. -/
def processRow (row : List String) (lnum : ℕ) : RowResult :=
  if row.length = 0 then .skipped
  else if row.length = 1 then .skipped
  else if (row.take 8).all (fun l => ¬ isNumericStr l) ∧ lnum < 3 then .skipped
  else if (row.take 8).headD "" = "Transactions Total" then .skipped
  else classify (init_from_str_array (row.take 8))

/-- Result of a `load_csv` run: parsed records in input order, the logged
`(file, line)` error reports, and the line at which an uncaught exception
aborted the run, if any. -/
structure LoadResult where
  records : List CSVLine
  errors : List (String × ℕ)
  aborted : Option ℕ
  deriving DecidableEq

/-- The row loop of `load_csv`, starting at 1-based line number `lnum`. -/
def loadGo (fname : String) : ℕ → List (List String) → LoadResult
  | _, [] => ⟨[], [], none⟩
  | lnum, row :: rest =>
    match processRow row lnum with
    | .skipped => loadGo fname (lnum + 1) rest
    | .parsed cl =>
      let r := loadGo fname (lnum + 1) rest
      { r with records := cl :: r.records }
    | .rowError =>
      let r := loadGo fname (lnum + 1) rest
      { r with errors := (fname, lnum) :: r.errors }
    | .assertAbort => ⟨[], [(fname, lnum)], some lnum⟩
    | .otherAbort => ⟨[], [], some lnum⟩

/-- Shift a record's timestamp forward by `k` whole seconds
(`tx.date + timedelta(seconds=k)`). -/
def addSecs (cl : CSVLine) (k : ℕ) : CSVLine :=
  { cl with date := { cl.date with secs := cl.date.secs + k } }

/-- The same-day disambiguation pass of `load_csv` (lines 319-331).  The
source groups records by calendar day preserving order and walks each group
in reverse, handing out offsets 0, 1, 2, …; hence each record's offset is
exactly the number of later records falling on the same calendar day, which
is the form used here. -/
def applyDayOffsets : List CSVLine → List CSVLine
  | [] => []
  | cl :: rest =>
    addSecs cl (rest.countP (fun c => decide (dayKey c.date = dayKey cl.date)))
      :: applyDayOffsets rest

/-- Model of `load_csv` (`options.py` lines 291-332) on the parsed rows of
a file. -/
def load_csv (fname : String) (rows : List (List String)) : LoadResult :=
  let r := loadGo fname 1 rows
  match r.aborted with
  | none => { r with records := applyDayOffsets r.records }
  | some _ => r

/-! ### `get_positions` (`options.py` lines 377-414) -/

/-- Model of `CSVLine.init_from_transaction` (`options.py` lines 148-160):
re-derive a `CSVLine` from a stored document.  `none` models the uncaught
exceptions (`KeyError` from the enum lookup, `InvalidOperation` from
`Decimal`, `AssertionError`/`IndexError` from `parse_price`). -/
def init_from_transaction (p : TransDoc) : Option CSVLine := do
  let action ← Action.ofName p.action
  let q ← parseDec p.quantity.toList
  let price ← (parse_price p.price.toList).toOption
  let fees ← (parse_price p.fees.toList).toOption
  let amount ← (parse_price p.amount.toList).toOption
  some ⟨fmtDateMDY p.date, p.date, action, p.symbol, p.desc, some q, price, fees, amount⟩

/-- The scan state of `get_positions`: the output positions in creation
order, and the map from symbol to the index of its most recently created
position. -/
structure PosState where
  positions : List Position
  openMap : List (String × ℕ)
  deriving DecidableEq

/-- Dictionary lookup in the symbol map. -/
def lookupMap (m : List (String × ℕ)) (s : String) : Option ℕ :=
  (m.find? (fun e => e.1 = s)).map Prod.snd

/-- Dictionary assignment in the symbol map. -/
def setMap : List (String × ℕ) → String → ℕ → List (String × ℕ)
  | [], s, i => [(s, i)]
  | (s', i') :: rest, s, i =>
    if s' = s then (s', i) :: rest else (s', i') :: setMap rest s i

/-- The open-position lookup of `get_positions` (lines 397-401): the mapped
position counts only while it is not yet closed.  The outer `none` models a
crash inside `is_closed`. -/
def openFor (st : PosState) (s : String) : Option (Option ℕ) :=
  match lookupMap st.openMap s with
  | none => some none
  | some i =>
    match st.positions.get? i with
    | none => none
    | some p => (Position.is_closed p).map (fun c => if c then none else some i)

/-- One iteration of the `get_positions` scan (lines 396-412). -/
def posStep (st : PosState) (x : TransDoc) : Option PosState := do
  let cl ← init_from_transaction x
  let leg : Leg := ⟨x.symbol, [cl]⟩
  let idx? ← openFor st x.symbol
  match idx? with
  | some i => do
    let p ← st.positions.get? i
    some { st with positions := st.positions.set i (p.add_leg leg) }
  | none =>
    some { positions := st.positions ++ [(Position.mk Strategy.CUSTOM []).add_leg leg],
           openMap := setMap st.openMap x.symbol st.positions.length }

/-- Model of `get_positions` (`options.py` lines 377-414) on the sequence
of stored documents its query returns, in order. -/
def get_positions (docs : List TransDoc) : Option (List Position) :=
  (docs.foldlM posStep ⟨[], []⟩).map PosState.positions

/-! ### Filter engine

Modelled from the spec: the `Filter`-aware query of
`get_positions(client, filter)` is absent from the source tree (its callers
in `main.py` and the tests pass a `Filter` built from `config.py`); §4.2 of
the spec defines which stored records the filtered query returns.  The
`Filter`/`Range` shapes below follow `config.py`, with the date bounds
already parsed. -/

/-- Modelled from the spec: anchored matching of the tiny regular-expression
dialect the filters use — literal characters, `.` for any character and
postfix `*` for repetition.  The fuel argument only forces structural
recursion; `pattern.length + text.length` steps always suffice. -/
def reMatchFuel : ℕ → List Char → List Char → Bool
  | 0, _, _ => false
  | fuel + 1, p, s =>
    match p, s with
    | [], _ => true
    | _ :: Char.mk 42 _ :: ps, [] => reMatchFuel fuel ps []
    | c :: Char.mk 42 pf :: ps, x :: xs =>
      reMatchFuel fuel ps (x :: xs) ||
        ((c == Char.ofNat 46 || c == x) && reMatchFuel fuel (c :: Char.mk 42 pf :: ps) xs)
    | _ :: _, [] => false
    | c :: ps, x :: xs => (c == Char.ofNat 46 || c == x) && reMatchFuel fuel ps xs

/-- Anchored regex match with sufficient fuel. -/
def reMatchCore (p s : List Char) : Bool :=
  reMatchFuel (p.length + s.length + 1) p s

/-- Modelled from the spec: unanchored (search) semantics, as a
document-store regex filter applies. -/
def reSearch (p s : List Char) : Bool :=
  (s.tails).any (fun t => reMatchCore p t)

/-- Modelled from the spec: case-insensitive regex match of a pattern
against a stored text. -/
def matchesRegexCI (pat : String) (s : String) : Bool :=
  reSearch (pat.toList.map Char.toLower) (s.toList.map Char.toLower)

/-- Date range of a `Filter` (`config.py`), bounds already parsed. -/
structure DateRange where
  start : Option DateTime := none
  stop : Option DateTime := none
  deriving DecidableEq

/-- Query filter (`config.py`): optional case-insensitive symbol regex,
optional case-insensitive exact underlying, optional date range. -/
structure Filter where
  symbol : Option String := none
  underlying : Option String := none
  range : DateRange := {}
  deriving DecidableEq

/-- Modelled from the spec (§4.2 `query(filter)`): a stored record is
returned iff it is an option record (`underlying` present), its kind is one
of the four open/close kinds, and every set filter component accepts it. -/
def matchesFilter (f : Filter) (d : TransDoc) : Bool :=
  d.underlying.isSome &&
  (d.action ∈ ["BUY_TO_OPEN", "SELL_TO_OPEN", "BUY_TO_CLOSE", "SELL_TO_CLOSE"] : Bool) &&
  (match f.symbol with
   | none => true
   | some pat => matchesRegexCI pat d.symbol) &&
  (match f.underlying, d.underlying with
   | none, _ => true
   | some u, some du => u.toList.map Char.toLower = du.toList.map Char.toLower
   | some _, none => false) &&
  (match f.range.start with
   | none => true
   | some st => dtLE st d.date) &&
  (match f.range.stop with
   | none => true
   | some en => dtLE d.date en)

/-- Modelled from the spec: the filtered store query feeding the position
scan. -/
def queryFilter (f : Filter) (docs : List TransDoc) : List TransDoc :=
  docs.filter (matchesFilter f)

/-! ### Statement-side helpers and concrete sample inputs -/

/-- The input of `parse_price` with the optional leading minus removed. -/
def afterSign (s : List Char) : List Char :=
  if s.head? = some (Char.ofNat 45) then s.tail else s

/-- The sign factor `parse_price` applies. -/
def priceSign (s : List Char) : ℚ :=
  if s.head? = some (Char.ofNat 45) then -1 else 1

/-- Whether `parse_price` raises on the given input. -/
def priceErr (s : List Char) : Bool :=
  match parse_price s with
  | .ok _ => false
  | .error _ => true

/-- Signed contribution of one line to a leg's net quantity: buy-to-open
and buy-to-close add, sell-to-open and sell-to-close subtract, other kinds
contribute nothing. -/
def netContrib (cl : CSVLine) : ℚ :=
  if cl.action = Action.BUY_TO_OPEN ∨ cl.action = Action.BUY_TO_CLOSE then
    cl.quantity.getD 0
  else if cl.action = Action.SELL_TO_OPEN ∨ cl.action = Action.SELL_TO_CLOSE then
    -(cl.quantity.getD 0)
  else 0

/-- A concrete transaction line for instance checks. -/
def sampleLine (a : Action) (sym : String) (q p : ℚ) : CSVLine :=
  ⟨"02/08/2022", ⟨2022, 2, 8, 0⟩, a, sym, "desc", some q, p, 0, 0⟩

/-- A concrete quantity-less transaction line: an expiration row whose
quantity field was empty parses with no quantity. -/
def c8noneLine : CSVLine :=
  ⟨"01/01/2022", ⟨2022, 1, 1, 0⟩, Action.EXPIRED, "XYZ", "desc", none, 5, 0, 0⟩

/-- A concrete stored option document for instance checks. -/
def sampleDoc (a : Action) (sym u : String) (d : DateTime) (price : String) : TransDoc :=
  { str_date := "02/08/2022", date := d, action := a.pyName, symbol := sym,
    desc := "desc", quantity := "1", price := price, fees := "$0", amount := "$166",
    insertion_date := d, underlying := some u, expiration := some "03/18/2022",
    strike := some "100.00", option_type := some "PUT" }

/-- The 100-strike PRU option document of the spec's filter examples. -/
def pruDoc100 : TransDoc :=
  sampleDoc Action.SELL_TO_OPEN "PRU 03/18/2022 100.00 P" "PRU" ⟨2022, 2, 7, 0⟩ "$2"

/-- The 110-strike PRU option document of the spec's filter examples. -/
def pruDoc110 : TransDoc :=
  { sampleDoc Action.SELL_TO_OPEN "PRU 03/18/2022 110.00 P" "PRU" ⟨2022, 2, 14, 0⟩ "$2" with
      strike := some "110.00" }

/-- A concrete stored option document for the position-reopen scenario. -/
def c4doc (a : Action) : TransDoc := sampleDoc a "XS" "X" ⟨2022, 1, 1, 0⟩ "$2"

/-- The record `init_from_transaction` re-derives from `c4doc a`. -/
def c4line (a : Action) : CSVLine :=
  ⟨"01/01/2022", ⟨2022, 1, 1, 0⟩, a, "XS", "desc", some 1, 2, 0, 166⟩

/-! ### Theorems: decimal round trip -/

theorem digitsGo_eq_digits : ∀ fuel n, n ≤ fuel → digitsGo fuel n = Nat.digits 10 n := by
  intro fuel
  induction fuel with
  | zero =>
    intro n hn
    interval_cases n
    simp [digitsGo]
  | succ fuel ih =>
    intro n hn
    match n with
    | 0 => simp [digitsGo]
    | m + 1 =>
      rw [digitsGo]
      have hdiv : (m + 1) / 10 ≤ fuel := by
        have : (m + 1) / 10 < m + 1 := Nat.div_lt_self (by omega) (by norm_num)
        omega
      rw [ih _ hdiv]
      rw [Nat.digits_def' (by norm_num : 1 < 10) (by omega : 0 < m + 1)]

theorem digits10_eq (n : ℕ) : digits10 n = Nat.digits 10 n :=
  digitsGo_eq_digits n n le_rfl

theorem charVal_digitChar {d : ℕ} (h : d < 10) : charVal (digitChar d) = d := by
  interval_cases d <;> rfl

theorem isDigit_digitChar {d : ℕ} (h : d < 10) : (digitChar d).isDigit = true := by
  interval_cases d <;> rfl

theorem parseNatCore_append (a b : List Char) :
    parseNatCore (a ++ b) = parseNatCore a * 10 ^ b.length + parseNatCore b := by
  induction b using List.reverseRecOn with
  | nil => simp [parseNatCore]
  | append_singleton b c ih =>
    have h1 : a ++ (b ++ [c]) = (a ++ b) ++ [c] := by simp
    simp only [parseNatCore, h1, List.foldl_append, List.foldl_cons, List.foldl_nil] at *
    rw [ih]
    ring_nf
    simp [pow_succ]
    ring

theorem parseNatCore_revmap (ds : List ℕ) (h : ∀ d ∈ ds, d < 10) :
    parseNatCore ((ds.map digitChar).reverse) = Nat.ofDigits 10 ds := by
  induction ds with
  | nil => simp [parseNatCore]
  | cons d rest ih =>
    have hd : d < 10 := h d (by simp)
    have hrest : ∀ x ∈ rest, x < 10 := fun x hx => h x (by simp [hx])
    simp only [List.map_cons, List.reverse_cons, Nat.ofDigits_cons]
    rw [parseNatCore_append, ih hrest]
    simp [parseNatCore, charVal_digitChar hd]
    ring

theorem fmtNat_all_digits (n : ℕ) : (fmtNat n).all Char.isDigit = true := by
  unfold fmtNat
  rw [digits10_eq]
  split
  · rfl
  · simp only [List.all_eq_true, List.mem_reverse, List.mem_map]
    rintro c ⟨d, hd, rfl⟩
    exact isDigit_digitChar (Nat.digits_lt_base (by norm_num) hd)

theorem fmtNat_ne_nil (n : ℕ) : fmtNat n ≠ [] := by
  unfold fmtNat
  rw [digits10_eq]
  split
  · simp
  · simp only [ne_eq, List.reverse_eq_nil_iff, List.map_eq_nil_iff]
    exact Nat.digits_ne_nil_iff_ne_zero.mpr (by assumption)

theorem parseNatCore_fmtNat (n : ℕ) : parseNatCore (fmtNat n) = n := by
  unfold fmtNat
  rw [digits10_eq]
  split
  · subst n; rfl
  · rw [parseNatCore_revmap _ (fun d hd => Nat.digits_lt_base (by norm_num) hd)]
    exact Nat.ofDigits_digits 10 n

theorem parseNatCore_replicate_zero (k : ℕ) (cs : List Char) :
    parseNatCore (List.replicate k (Char.ofNat 48) ++ cs) = parseNatCore cs := by
  induction k with
  | zero => simp
  | succ k ih =>
    simp only [List.replicate_succ, List.cons_append]
    simpa [parseNatCore, charVal] using ih

theorem parseNatCore_fmtNatPad (w n : ℕ) : parseNatCore (fmtNatPad w n) = n := by
  unfold fmtNatPad
  rw [parseNatCore_replicate_zero, parseNatCore_fmtNat]

theorem fmtNatPad_all_digits (w n : ℕ) : (fmtNatPad w n).all Char.isDigit = true := by
  unfold fmtNatPad
  simp only [List.all_append, Bool.and_eq_true]
  refine ⟨?_, fmtNat_all_digits n⟩
  simp only [List.all_eq_true, List.mem_replicate]
  rintro c ⟨-, rfl⟩
  rfl

theorem fmtNat_length_le {n e : ℕ} (h : n < 10 ^ e) (he : 0 < e) :
    (fmtNat n).length ≤ e := by
  unfold fmtNat
  rw [digits10_eq]
  split
  · simpa using he
  · simp only [List.length_reverse, List.length_map]
    rw [Nat.digits_len 10 n (by norm_num) (by assumption)]
    have : Nat.log 10 n < e := Nat.log_lt_of_lt_pow (by assumption) h
    omega

theorem pvalAux_ge {p : ℕ} (hp : 2 ≤ p) :
    ∀ fuel n a, n ≠ 0 → n ≤ fuel → p ^ a ∣ n → a ≤ pvalAux fuel p n := by
  intro fuel
  induction fuel with
  | zero => intro n a hn hle _; omega
  | succ fuel ih =>
    intro n a hn hle hdvd
    match a with
    | 0 => omega
    | a + 1 =>
      have hpn : p ∣ n := dvd_trans (dvd_pow_self p (Nat.succ_ne_zero a)) hdvd
      have hmod : n % p = 0 := by
        obtain ⟨c, rfl⟩ := hpn
        exact Nat.mul_mod_right p c
      have hcond : 2 ≤ p ∧ n ≠ 0 ∧ n % p = 0 := ⟨hp, hn, hmod⟩
      rw [pvalAux, if_pos hcond]
      have hq : n / p ≠ 0 := by
        intro h0
        have := Nat.div_mul_cancel hpn
        rw [h0, Nat.zero_mul] at this
        exact hn this.symm
      have hqle : n / p ≤ fuel := by
        have : n / p < n := Nat.div_lt_self (Nat.pos_of_ne_zero hn) (by omega)
        omega
      have hqd : p ^ a ∣ n / p := by
        rcases hdvd with ⟨c, hc⟩
        refine ⟨c, ?_⟩
        rw [hc, pow_succ]
        rw [Nat.mul_comm (p ^ a) p, Nat.mul_assoc]
        exact Nat.mul_div_cancel_left _ (by omega)
      have := ih (n / p) a hq hqle hqd
      omega

theorem le_pval {p n a : ℕ} (hp : 2 ≤ p) (hn : n ≠ 0) (h : p ^ a ∣ n) : a ≤ pval p n :=
  pvalAux_ge hp n n a hn le_rfl h

theorem den_dvd_pow_eExp {q : ℚ} (h : IsDec q) : q.den ∣ 10 ^ eExp q.den := by
  obtain ⟨a, b, hab⟩ := h
  have hden : q.den ≠ 0 := q.den_nz
  have ha : a ≤ pval 2 q.den := le_pval (by norm_num) hden ⟨5 ^ b, hab⟩
  have hb : b ≤ pval 5 q.den := le_pval (by norm_num) hden ⟨2 ^ a, by rw [hab]; ring⟩
  have h2 : (2 : ℕ) ^ a ∣ 2 ^ eExp q.den := pow_dvd_pow 2 (le_trans ha (le_max_left _ _))
  have h5 : (5 : ℕ) ^ b ∣ 5 ^ eExp q.den := pow_dvd_pow 5 (le_trans hb (le_max_right _ _))
  have h10 : (10 : ℕ) ^ eExp q.den = 2 ^ eExp q.den * 5 ^ eExp q.den := by
    rw [← Nat.mul_pow]
  rw [h10]
  nth_rewrite 1 [hab]
  exact Nat.mul_dvd_mul h2 h5

theorem takeWhile_all_of {p : Char → Bool} {l : List Char} (h : ∀ x ∈ l, p x) :
    l.takeWhile p = l ∧ l.dropWhile p = [] := by
  induction l with
  | nil => exact ⟨rfl, rfl⟩
  | cons a l ih =>
    have ha : p a := h a (by simp)
    have ih' := ih (fun x hx => h x (by simp [hx]))
    simp only [List.takeWhile_cons, List.dropWhile_cons, ha, if_pos]
    exact ⟨by rw [ih'.1], by rw [ih'.2]⟩

theorem takeWhile_append_stop {p : Char → Bool} {l rest : List Char} {c : Char}
    (h : ∀ x ∈ l, p x) (hc : p c = false) :
    (l ++ c :: rest).takeWhile p = l ∧ (l ++ c :: rest).dropWhile p = c :: rest := by
  induction l with
  | nil =>
    simp only [List.nil_append, List.takeWhile_cons, List.dropWhile_cons, hc]
    exact ⟨rfl, rfl⟩
  | cons a l ih =>
    have ha : p a := h a (by simp)
    have ih' := ih (fun x hx => h x (by simp [hx]))
    simp only [List.cons_append, List.takeWhile_cons, List.dropWhile_cons, ha, if_pos]
    exact ⟨by rw [ih'.1], by rw [ih'.2]⟩

theorem mem_all_digits {cs : List Char} (h : cs.all Char.isDigit = true) :
    ∀ c ∈ cs, decide (c ≠ Char.ofNat 46) = true := by
  intro c hc
  have hd : c.isDigit = true := by
    rw [List.all_eq_true] at h
    exact h c hc
  simp only [ne_eq, decide_eq_true_eq]
  intro heq
  subst heq
  exact absurd hd (by decide)

theorem parseUDec_fmtDecM (m e : ℕ) :
    parseUDec (fmtDecM m e) = some ((m : ℚ) / ((10 : ℚ) ^ e)) := by
  by_cases h0 : e = 0
  · subst h0
    have hall := fmtNat_all_digits m
    have htd := takeWhile_all_of (p := fun c => decide (c ≠ Char.ofNat 46)) (mem_all_digits hall)
    unfold fmtDecM parseUDec
    rw [if_pos rfl]
    rw [htd.2, htd.1]
    dsimp only
    rw [if_pos ⟨fmtNat_ne_nil m, hall⟩]
    rw [parseNatCore_fmtNat]
    norm_num
  · have hepos : 0 < e := Nat.pos_of_ne_zero h0
    have halli := fmtNat_all_digits (m / 10 ^ e)
    have hallf := fmtNatPad_all_digits e (m % 10 ^ e)
    have htd := @takeWhile_append_stop _ (fmtNat (m / 10 ^ e))
      (fmtNatPad e (m % 10 ^ e)) (Char.ofNat 46)
      (mem_all_digits halli) (by simp)
    have hflen : (fmtNatPad e (m % 10 ^ e)).length = e := by
      unfold fmtNatPad
      have hlt : m % 10 ^ e < 10 ^ e := Nat.mod_lt _ (by positivity)
      have := fmtNat_length_le hlt hepos
      simp only [List.length_append, List.length_replicate]
      omega
    unfold fmtDecM parseUDec
    rw [if_neg h0]
    rw [htd.2, htd.1]
    dsimp only
    have hne : fmtNat (m / 10 ^ e) ≠ [] := fmtNat_ne_nil _
    have hall2 : (fmtNat (m / 10 ^ e) ++ fmtNatPad e (m % 10 ^ e)).all Char.isDigit = true := by
      rw [List.all_append, halli, hallf]
      rfl
    rw [if_pos ⟨by simp [hne], hall2⟩]
    rw [parseNatCore_fmtNat, parseNatCore_fmtNatPad, hflen]
    have hnat : m / 10 ^ e * 10 ^ e + m % 10 ^ e = m := by
      rw [Nat.mul_comm]
      exact Nat.div_add_mod m (10 ^ e)
    rw [hnat]
    norm_num

theorem fmtDec_val {q : ℚ} (hd : IsDec q) (hq : 0 ≤ q.num) :
    ((q.num.natAbs * 10 ^ eExp q.den / q.den : ℕ) : ℚ) / ((10 : ℚ) ^ eExp q.den) = q := by
  have hmden : (q.num.natAbs * 10 ^ eExp q.den / q.den) * q.den
      = q.num.natAbs * 10 ^ eExp q.den :=
    Nat.div_mul_cancel (Dvd.dvd.mul_left (den_dvd_pow_eExp hd) _)
  have hcast := congrArg (fun n : ℕ => (n : ℚ)) hmden
  have h1 : ((q.num.natAbs : ℕ) : ℚ) = (q.num : ℚ) := by
    rw [Int.cast_natAbs, abs_of_nonneg hq]
  push_cast at hcast
  rw [h1] at hcast
  have hden0 : (q.den : ℚ) ≠ 0 := by
    exact_mod_cast q.den_nz
  have h10 : ((10 : ℚ) ^ eExp q.den) ≠ 0 := by positivity
  have hqd : q * (q.den : ℚ) = (q.num : ℚ) := Rat.mul_den_eq_num q
  rw [div_eq_iff h10]
  refine mul_right_cancel₀ hden0 ?_
  rw [hcast, ← hqd]
  ring

theorem parseUDec_fmtDec {q : ℚ} (hd : IsDec q) (hq : 0 ≤ q.num) :
    parseUDec (fmtDec q) = some q := by
  have hsign : ¬ q.num < 0 := not_lt.mpr hq
  unfold fmtDec
  rw [if_neg hsign, List.nil_append, parseUDec_fmtDecM, fmtDec_val hd hq]

theorem isDigit_ne_minus {c : Char} (h : c.isDigit = true) :
    c ≠ Char.ofNat 45 ∧ c ≠ Char.ofNat 43 := by
  constructor <;> intro heq <;> subst heq <;> exact absurd h (by decide)

theorem fmtDec_neg_eq {q : ℚ} (hq : q.num < 0) :
    fmtDec q = Char.ofNat 45 :: fmtDec (-q) := by
  have hnum : (-q).num = -q.num := by simp
  have hden : (-q).den = q.den := by simp
  have habs : (-q).num.natAbs = q.num.natAbs := by simp
  unfold fmtDec
  rw [habs, hnum, hden, if_pos hq, if_neg (by omega : ¬ -q.num < 0), List.nil_append]
  rfl

theorem fmtDec_head_digit {q : ℚ} (hq : 0 ≤ q.num) :
    ∃ c rest, fmtDec q = c :: rest ∧ c.isDigit = true := by
  have hsign : ¬ q.num < 0 := not_lt.mpr hq
  unfold fmtDec fmtDecM
  rw [if_neg hsign, List.nil_append]
  split
  · obtain ⟨c, rest, hcr⟩ := List.exists_cons_of_ne_nil (fmtNat_ne_nil _)
    refine ⟨c, rest, hcr, ?_⟩
    have hall := fmtNat_all_digits (q.num.natAbs * 10 ^ eExp q.den / q.den)
    rw [hcr] at hall
    simp only [List.all_cons, Bool.and_eq_true] at hall
    exact hall.1
  · obtain ⟨c, rest, hcr⟩ := List.exists_cons_of_ne_nil
      (fmtNat_ne_nil (q.num.natAbs * 10 ^ eExp q.den / q.den / 10 ^ eExp q.den))
    rw [hcr]
    refine ⟨c, _, rfl, ?_⟩
    have hall := fmtNat_all_digits (q.num.natAbs * 10 ^ eExp q.den / q.den / 10 ^ eExp q.den)
    rw [hcr] at hall
    simp only [List.all_cons, Bool.and_eq_true] at hall
    exact hall.1

/-- The decimal print/parse round trip: parsing the printed form of any
decimal-representable rational recovers the value. -/
theorem parseDec_fmtDec {q : ℚ} (hd : IsDec q) : parseDec (fmtDec q) = some q := by
  by_cases hq : 0 ≤ q.num
  · obtain ⟨c, rest, hcr, hdig⟩ := fmtDec_head_digit hq
    obtain ⟨hm, hp⟩ := isDigit_ne_minus hdig
    rw [hcr]
    simp only [parseDec]
    rw [if_neg hm, if_neg hp, ← hcr]
    exact parseUDec_fmtDec hd hq
  · push_neg at hq
    rw [fmtDec_neg_eq hq]
    simp only [parseDec, if_true]
    have hd' : IsDec (-q) := by
      obtain ⟨a, b, hab⟩ := hd
      exact ⟨a, b, by simpa using hab⟩
    have hq' : 0 ≤ (-q).num := by simp only [Rat.neg_num]; omega
    rw [parseUDec_fmtDec hd' hq']
    simp

theorem parsePriceMag_dollar_fmtDec {q : ℚ} (hd : IsDec q) :
    parsePriceMag (Char.ofNat 36 :: fmtDec q) = .ok q := by
  unfold parsePriceMag
  dsimp only
  rw [if_pos rfl, parseDec_fmtDec hd]

theorem parse_price_format_price {q : ℚ} (hd : IsDec q) :
    parse_price (format_price q) = .ok q := by
  have hdneg : IsDec (-q) := by
    obtain ⟨a, b, hab⟩ := hd
    exact ⟨a, b, by simpa using hab⟩
  by_cases hq : q < 0
  · have hfmt : format_price q = Char.ofNat 45 :: Char.ofNat 36 :: fmtDec (-q) := by
      unfold format_price
      rw [if_pos hq, if_pos hq]
      rfl
    rw [hfmt]
    unfold parse_price
    rw [if_neg (by simp)]
    simp only [List.head?_cons, List.tail_cons, if_true]
    rw [parsePriceMag_dollar_fmtDec hdneg]
    simp only [Except.map]
    congr 1
    ring
  · have hfmt : format_price q = Char.ofNat 36 :: fmtDec q := by
      unfold format_price
      rw [if_neg hq, if_neg hq]
      rfl
    rw [hfmt]
    unfold parse_price
    rw [if_neg (by simp)]
    simp only [List.head?_cons]
    rw [if_neg (by decide), parsePriceMag_dollar_fmtDec hd]
    simp only [Except.map]
    rw [mul_one]

/-! ### Theorems: leg aggregation -/

theorem wavg_foldl (lst : List (ℚ × ℚ)) (s t : ℚ) :
    lst.foldl (fun acc a => (acc.1 + a.1 * a.2, acc.2 + a.2)) (s, t)
      = (s + (lst.map (fun a => a.1 * a.2)).sum, t + (lst.map Prod.snd).sum) := by
  induction lst generalizing s t with
  | nil => simp
  | cons a rest ih =>
    simp only [List.foldl_cons, List.map_cons, List.sum_cons, ih, Prod.mk.injEq]
    constructor <;> ring

theorem wavg_eq (lst : List (ℚ × ℚ)) :
    wavg lst = (lst.map (fun a => a.1 * a.2)).sum / (lst.map Prod.snd).sum := by
  unfold wavg
  rw [wavg_foldl]
  simp

theorem optPairs_eq (keep : Action → Bool) (lines : List CSVLine)
    (h : ∀ cl ∈ lines, cl.quantity.isSome) :
    optPairs keep lines = some ((lines.filter (fun cl => keep cl.action)).map
      (fun cl => (cl.price, cl.quantity.getD 0))) := by
  induction lines with
  | nil => rfl
  | cons cl rest ih =>
    have hcl := h cl (by simp)
    obtain ⟨q, hq⟩ := Option.isSome_iff_exists.mp hcl
    have ih' := ih (fun c hc => h c (by simp [hc]))
    by_cases hk : keep cl.action
    · conv_lhs => rw [optPairs]
      rw [if_pos hk, hq]
      dsimp only
      rw [ih']
      simp only [Option.map_some, List.filter_cons, hk, if_pos, List.map_cons, Option.some.injEq]
      rw [hq]
      rfl
    · conv_lhs => rw [optPairs]
      rw [if_neg hk, ih']
      simp [List.filter_cons, hk]

theorem qsumGo_eq (lines : List CSVLine) (acc : ℚ)
    (h : ∀ cl ∈ lines, cl.quantity.isSome) :
    qsumGo acc lines = some (acc + (lines.map netContrib).sum) := by
  induction lines generalizing acc with
  | nil => simp [qsumGo]
  | cons cl rest ih =>
    have hcl := h cl (by simp)
    obtain ⟨q, hq⟩ := Option.isSome_iff_exists.mp hcl
    have ih' := fun a => ih a (fun c hc => h c (by simp [hc]))
    by_cases h1 : cl.action = Action.BUY_TO_OPEN ∨ cl.action = Action.BUY_TO_CLOSE
    · have hstep : qsumGo acc (cl :: rest) = qsumGo (acc + q) rest := by
        conv_lhs => rw [qsumGo]
        rw [if_pos h1, hq]
      have hnc : netContrib cl = q := by simp [netContrib, h1, hq]
      rw [hstep, ih', List.map_cons, List.sum_cons, hnc]
      congr 1
      ring
    · by_cases h2 : cl.action = Action.SELL_TO_OPEN ∨ cl.action = Action.SELL_TO_CLOSE
      · have hstep : qsumGo acc (cl :: rest) = qsumGo (acc - q) rest := by
          conv_lhs => rw [qsumGo]
          rw [if_neg h1, if_pos h2, hq]
        have hnc : netContrib cl = -q := by simp [netContrib, h1, h2, hq]
        rw [hstep, ih', List.map_cons, List.sum_cons, hnc]
        congr 1
        ring
      · have hstep : qsumGo acc (cl :: rest) = qsumGo acc rest := by
          conv_lhs => rw [qsumGo]
          rw [if_neg h1, if_neg h2]
        have hnc : netContrib cl = 0 := by simp [netContrib, h1, h2]
        rw [hstep, ih', List.map_cons, List.sum_cons, hnc]
        congr 1
        ring

/-- C2: for every leg whose lines carry quantities, `open_price_avg`
(resp. `close_price_avg`) is exactly the quantity-weighted mean
`sum(price * quantity) / sum(quantity)` over the open-kind (resp.
close-kind) lines, computed in exact arithmetic, and is no value when that
subset is empty; in particular open lines (1 @ 21.07, 4 @ 21.70) average to
exactly 21.574 (amended: the claim's example value 21.60 is not the
weighted mean of these inputs). -/
theorem c2_weighted_averages :
    (∀ l : Leg, (∀ cl ∈ l.lines, cl.quantity.isSome) →
      (l.lines.filter (fun cl => isOpenAction cl.action) = [] →
        l.open_price_avg = some none) ∧
      (l.lines.filter (fun cl => isOpenAction cl.action) ≠ [] →
        l.open_price_avg = some (some (
          ((l.lines.filter (fun cl => isOpenAction cl.action)).map
            (fun cl => cl.price * cl.quantity.getD 0)).sum /
          ((l.lines.filter (fun cl => isOpenAction cl.action)).map
            (fun cl => cl.quantity.getD 0)).sum))) ∧
      (l.lines.filter (fun cl => isCloseAction cl.action) = [] →
        l.close_price_avg = some none) ∧
      (l.lines.filter (fun cl => isCloseAction cl.action) ≠ [] →
        l.close_price_avg = some (some (
          ((l.lines.filter (fun cl => isCloseAction cl.action)).map
            (fun cl => cl.price * cl.quantity.getD 0)).sum /
          ((l.lines.filter (fun cl => isCloseAction cl.action)).map
            (fun cl => cl.quantity.getD 0)).sum)))) ∧
    (Leg.mk "SHOP 04/22/2022 550.00 P"
        [sampleLine Action.SELL_TO_OPEN "SHOP 04/22/2022 550.00 P" 1 (2107/100),
         sampleLine Action.SELL_TO_OPEN "SHOP 04/22/2022 550.00 P" 4 (217/10)]).open_price_avg
      = some (some (21.574 : ℚ)) := by
  have main : ∀ l : Leg, (∀ cl ∈ l.lines, cl.quantity.isSome) →
      (l.lines.filter (fun cl => isOpenAction cl.action) = [] →
        l.open_price_avg = some none) ∧
      (l.lines.filter (fun cl => isOpenAction cl.action) ≠ [] →
        l.open_price_avg = some (some (
          ((l.lines.filter (fun cl => isOpenAction cl.action)).map
            (fun cl => cl.price * cl.quantity.getD 0)).sum /
          ((l.lines.filter (fun cl => isOpenAction cl.action)).map
            (fun cl => cl.quantity.getD 0)).sum))) ∧
      (l.lines.filter (fun cl => isCloseAction cl.action) = [] →
        l.close_price_avg = some none) ∧
      (l.lines.filter (fun cl => isCloseAction cl.action) ≠ [] →
        l.close_price_avg = some (some (
          ((l.lines.filter (fun cl => isCloseAction cl.action)).map
            (fun cl => cl.price * cl.quantity.getD 0)).sum /
          ((l.lines.filter (fun cl => isCloseAction cl.action)).map
            (fun cl => cl.quantity.getD 0)).sum))) := by
    intro l h
    have hop := optPairs_eq isOpenAction l.lines h
    have hcl := optPairs_eq isCloseAction l.lines h
    unfold Leg.open_price_avg Leg.close_price_avg
    rw [hop, hcl]
    refine ⟨fun hemp => ?_, fun hne => ?_, fun hemp => ?_, fun hne => ?_⟩
    · rw [hemp]
      rfl
    · have hlen : 0 < ((l.lines.filter (fun cl => isOpenAction cl.action)).map
          (fun cl => (cl.price, cl.quantity.getD 0))).length := by
        simpa [List.length_pos] using hne
      rw [Option.map_some', if_pos hlen, wavg_eq]
      simp [List.map_map, Function.comp_def]
    · rw [hemp]
      rfl
    · have hlen : 0 < ((l.lines.filter (fun cl => isCloseAction cl.action)).map
          (fun cl => (cl.price, cl.quantity.getD 0))).length := by
        simpa [List.length_pos] using hne
      rw [Option.map_some', if_pos hlen, wavg_eq]
      simp [List.map_map, Function.comp_def]
  refine ⟨main, ?_⟩
  have h := (main (Leg.mk "SHOP 04/22/2022 550.00 P"
      [sampleLine Action.SELL_TO_OPEN "SHOP 04/22/2022 550.00 P" 1 (2107/100),
       sampleLine Action.SELL_TO_OPEN "SHOP 04/22/2022 550.00 P" 4 (217/10)])
    (by decide)).2.1 (by decide)
  rw [h]
  simp [sampleLine, isOpenAction]
  norm_num

/-- Counterexample for C2 as frozen: the leg with open lines
(1 @ 21.07, 4 @ 21.70) does not average to 21.60 — the weighted mean of
those inputs is 21.574. -/
theorem c2_counterexample :
    ¬ ((Leg.mk "SHOP 04/22/2022 550.00 P"
        [sampleLine Action.SELL_TO_OPEN "SHOP 04/22/2022 550.00 P" 1 (2107/100),
         sampleLine Action.SELL_TO_OPEN "SHOP 04/22/2022 550.00 P" 4 (217/10)]).open_price_avg
      = some (some (21.60 : ℚ))) := by
  have hval : (Leg.mk "SHOP 04/22/2022 550.00 P"
      [sampleLine Action.SELL_TO_OPEN "SHOP 04/22/2022 550.00 P" 1 (2107/100),
       sampleLine Action.SELL_TO_OPEN "SHOP 04/22/2022 550.00 P" 4 (217/10)]).open_price_avg
      = some (some (21.574 : ℚ)) := by
    simp [Leg.open_price_avg, optPairs, sampleLine, isOpenAction, wavg]
    norm_num
  rw [hval]
  intro hcon
  rw [Option.some.injEq, Option.some.injEq] at hcon
  norm_num at hcon

/-- Witness for C2 at a concrete two-line leg. -/
theorem c2_witness :
    (Leg.mk "N" [sampleLine Action.SELL_TO_OPEN "N" 2 3,
                 sampleLine Action.BUY_TO_CLOSE "N" 4 5]).open_price_avg
      = some (some 3) := by
  have h := (c2_weighted_averages.1
    (Leg.mk "N" [sampleLine Action.SELL_TO_OPEN "N" 2 3,
                 sampleLine Action.BUY_TO_CLOSE "N" 4 5]) (by decide)).2.1 (by decide)
  rw [h]
  simp [sampleLine, isOpenAction]

/-- C3: a leg's derived net quantity is the signed sum of its lines'
quantities (buys add, sells subtract) and the leg is closed exactly when
that sum is zero; a leg with opens totalling 5 and closes totalling −5 is
closed, and a leg with a single opening line is not. -/
theorem c3_net_quantity :
    (∀ l : Leg, (∀ cl ∈ l.lines, cl.quantity.isSome) →
      l.quantity_sum = some ((l.lines.map netContrib).sum) ∧
      (l.is_closed = some true ↔ (l.lines.map netContrib).sum = 0)) ∧
    (Leg.mk "X" [sampleLine Action.BUY_TO_OPEN "X" 5 1,
                 sampleLine Action.SELL_TO_CLOSE "X" 5 1]).is_closed = some true ∧
    (Leg.mk "X" [sampleLine Action.SELL_TO_OPEN "X" 1 1]).is_closed = some false := by
  have main : ∀ l : Leg, (∀ cl ∈ l.lines, cl.quantity.isSome) →
      l.quantity_sum = some ((l.lines.map netContrib).sum) ∧
      (l.is_closed = some true ↔ (l.lines.map netContrib).sum = 0) := by
    intro l h
    have hq := qsumGo_eq l.lines 0 h
    rw [zero_add] at hq
    have hqs : l.quantity_sum = some ((l.lines.map netContrib).sum) := hq
    refine ⟨hqs, ?_⟩
    unfold Leg.is_closed
    rw [hqs]
    simp
  refine ⟨main, ?_, ?_⟩
  · have hm := main (Leg.mk "X" [sampleLine Action.BUY_TO_OPEN "X" 5 1,
      sampleLine Action.SELL_TO_CLOSE "X" 5 1]) (by decide)
    rw [hm.2]
    simp [sampleLine, netContrib]
  · have hm := main (Leg.mk "X" [sampleLine Action.SELL_TO_OPEN "X" 1 1]) (by decide)
    unfold Leg.is_closed
    rw [hm.1]
    simp [sampleLine, netContrib]

/-- Witness for C3 at a concrete mixed leg. -/
theorem c3_witness :
    (Leg.mk "W" [sampleLine Action.BUY_TO_OPEN "W" 2 1,
                 sampleLine Action.SELL_TO_OPEN "W" 3 1]).quantity_sum = some (-1) := by
  have h := (c3_net_quantity.1
    (Leg.mk "W" [sampleLine Action.BUY_TO_OPEN "W" 2 1,
                 sampleLine Action.SELL_TO_OPEN "W" 3 1]) (by decide)).1
  rw [h]
  simp [sampleLine, netContrib]
  norm_num

/-! ### Theorems: parse_price error behaviour -/

theorem parsePriceMag_err (t : List Char) :
    (match parsePriceMag t with
      | Except.ok _ => false
      | Except.error _ => true) = true ↔
      (t.head? ≠ some (Char.ofNat 36) ∨ parseDec t.tail = none) := by
  cases t with
  | nil => simp [parsePriceMag]
  | cons c rest =>
    by_cases hc : c = Char.ofNat 36
    · subst hc
      rw [parsePriceMag]
      rw [if_pos rfl]
      cases hp : parseDec rest with
      | none => simp [hp]
      | some v => simp [hp]
    · rw [parsePriceMag, if_neg hc]
      simp [hc]

theorem parsePriceMag_ok {t : List Char} {m : ℚ} (hh : t.head? = some (Char.ofNat 36))
    (hp : parseDec t.tail = some m) : parsePriceMag t = .ok m := by
  cases t with
  | nil => simp at hh
  | cons c rest =>
    rw [List.head?_cons, Option.some.injEq] at hh
    subst hh
    rw [List.tail_cons] at hp
    rw [parsePriceMag, if_pos rfl, hp]

/-- C10 as frozen is refuted at the input `"$x"`: `parse_price` raises on
it (the text after `$` is not a decimal numeral) although the input is
non-empty and starts with `$` after sign removal. -/
theorem c10_counterexample :
    ¬ (priceErr [Char.ofNat 36, Char.ofNat 120] = true ↔
        ([Char.ofNat 36, Char.ofNat 120] ≠ [] ∧
          (afterSign [Char.ofNat 36, Char.ofNat 120]).head? ≠ some (Char.ofNat 36))) := by
  decide

/-- C10 amended: `parse_price` returns the exact decimal 0 on the empty
string; it raises on every non-empty input that, after removing an optional
leading minus, does not start with `$`; and on an input that after the
optional minus is `$` followed by a plain decimal numeral it returns the
numeral's value multiplied by the sign.  (Some `$`-prefixed inputs raise
too, as the counterexample's `"$x"` shows.) -/
theorem c10_parse_price_spec (s : List Char) :
    (s = [] → parse_price s = .ok 0) ∧
    (s ≠ [] → (afterSign s).head? ≠ some (Char.ofNat 36) → priceErr s = true) ∧
    (∀ m : ℚ, (afterSign s).head? = some (Char.ofNat 36) →
      parseDec (afterSign s).tail = some m → parse_price s = .ok (m * priceSign s)) := by
  refine ⟨fun hs => ?_, fun hs hh => ?_, fun m hh hp => ?_⟩
  · subst hs
    rfl
  · by_cases hm : s.head? = some (Char.ofNat 45)
    · rw [afterSign, if_pos hm] at hh
      rw [priceErr, parse_price, if_neg hs, if_pos hm]
      have herr := (parsePriceMag_err s.tail).mpr (Or.inl hh)
      cases hmag : parsePriceMag s.tail with
      | ok v =>
        rw [hmag] at herr
        simp at herr
      | error e =>
        simp [Except.map, hmag]
    · rw [afterSign, if_neg hm] at hh
      rw [priceErr, parse_price, if_neg hs, if_neg hm]
      have herr := (parsePriceMag_err s).mpr (Or.inl hh)
      cases hmag : parsePriceMag s with
      | ok v =>
        rw [hmag] at herr
        simp at herr
      | error e =>
        simp [Except.map, hmag]
  · have hsne : s ≠ [] := by
      intro h0
      subst h0
      rw [afterSign] at hh
      simp at hh
    by_cases hm : s.head? = some (Char.ofNat 45)
    · rw [afterSign, if_pos hm] at hh hp
      rw [parse_price, if_neg hsne, if_pos hm, parsePriceMag_ok hh hp]
      rw [priceSign, if_pos hm]
      rfl
    · rw [afterSign, if_neg hm] at hh hp
      rw [parse_price, if_neg hsne, if_neg hm, parsePriceMag_ok hh hp]
      rw [priceSign, if_neg hm]
      rfl

/-- Witness for the amended C10 at the concrete inputs `"20"` (a price
without its `$` marker raises) and `"-$20"` (a signed price parses). -/
theorem c10_witness :
    priceErr (String.toList "20") = true ∧
    parse_price (String.toList "-$20") = .ok (20 * priceSign (String.toList "-$20")) :=
  ⟨(c10_parse_price_spec (String.toList "20")).2.1 (by decide) (by decide),
   (c10_parse_price_spec (String.toList "-$20")).2.2 20 (by decide) (by decide)⟩

/-! ### Theorems: load_csv row dispatch -/

theorem headD_take8 (row : List String) : (row.take 8).headD "" = row.headD "" := by
  cases row <;> rfl

/-- C9: `load_csv` skips, without error, rows with fewer than 2 fields,
all-non-numeric rows seen while the 1-based row number is below 3, and rows
whose first field is the footer marker; every other row is parsed after
truncation to its first 8 fields. -/
theorem c9_row_skipping :
    (∀ (row : List String) (lnum : ℕ), row.length < 2 → processRow row lnum = .skipped) ∧
    (∀ (row : List String) (lnum : ℕ),
      (row.take 8).all (fun l => ¬ isNumericStr l) → lnum < 3 →
      processRow row lnum = .skipped) ∧
    (∀ (row : List String) (lnum : ℕ), row.headD "" = "Transactions Total" →
      processRow row lnum = .skipped) ∧
    (∀ (row : List String) (lnum : ℕ), 2 ≤ row.length →
      ¬ (((row.take 8).all (fun l => ¬ isNumericStr l)) ∧ lnum < 3) →
      row.headD "" ≠ "Transactions Total" →
      processRow row lnum = classify (init_from_str_array (row.take 8))) := by
  refine ⟨fun row lnum hlen => ?_, fun row lnum hall hnum => ?_,
    fun row lnum hfoot => ?_, fun row lnum hlen hhead hfoot => ?_⟩
  · rw [processRow]
    by_cases h0 : row.length = 0
    · rw [if_pos h0]
    · rw [if_neg h0, if_pos (by omega)]
  · rw [processRow]
    by_cases h0 : row.length = 0
    · rw [if_pos h0]
    · by_cases h1 : row.length = 1
      · rw [if_neg h0, if_pos h1]
      · rw [if_neg h0, if_neg h1, if_pos ⟨hall, hnum⟩]
  · rw [processRow]
    by_cases h0 : row.length = 0
    · rw [if_pos h0]
    · by_cases h1 : row.length = 1
      · rw [if_neg h0, if_pos h1]
      · rw [if_neg h0, if_neg h1]
        by_cases h2 : ((row.take 8).all (fun l => ¬ isNumericStr l) : Prop) ∧ lnum < 3
        · rw [if_pos h2]
        · rw [if_neg h2, if_pos (by rw [headD_take8]; exact hfoot)]
  · rw [processRow]
    rw [if_neg (by omega), if_neg (by omega), if_neg hhead,
      if_neg (by rw [headD_take8]; exact hfoot)]

/-- Witness for C9 at concrete rows: a one-field row, a header row at line
2, a footer row, and a parsed data row. -/
theorem c9_witness :
    processRow ["Transactions"] 7 = .skipped ∧
    processRow ["Date", "Action", "Symbol", "Desc", "Qty", "Price", "Fees", "Amount", ""] 2
      = .skipped ∧
    processRow ["Transactions Total", "", ""] 9 = .skipped ∧
    processRow ["03/17/2022", "Bogus", "S", "d", "1", "$1", "$0", "$1"] 5
      = classify (init_from_str_array
          (["03/17/2022", "Bogus", "S", "d", "1", "$1", "$0", "$1"].take 8)) :=
  ⟨c9_row_skipping.1 _ 7 (by decide),
   c9_row_skipping.2.1 _ 2 (by decide) (by decide),
   c9_row_skipping.2.2.1 _ 9 (by decide),
   c9_row_skipping.2.2.2 _ 5 (by decide) (by decide) (by decide)⟩

/-! ### Theorems: same-day timestamp disambiguation -/

theorem dayKey_addSecs (cl : CSVLine) (k : ℕ) : dayKey (addSecs cl k).date = dayKey cl.date := rfl

theorem secs_addSecs (cl : CSVLine) (k : ℕ) : (addSecs cl k).date.secs = cl.date.secs + k := rfl

theorem applyDayOffsets_get (lines : List CSVLine) :
    ∀ (i : ℕ) (a : CSVLine), lines.get? i = some a →
      (applyDayOffsets lines).get? i
        = some (addSecs a ((lines.drop (i + 1)).countP
            (fun c => decide (dayKey c.date = dayKey a.date)))) := by
  induction lines with
  | nil => intro i a ha; simp at ha
  | cons cl rest ih =>
    intro i a ha
    cases i with
    | zero =>
      rw [List.get?_cons_zero, Option.some.injEq] at ha
      subst ha
      rfl
    | succ n =>
      rw [List.get?_cons_succ] at ha
      rw [applyDayOffsets, List.get?_cons_succ]
      rw [ih n a ha]
      rfl

theorem applyDayOffsets_length (lines : List CSVLine) :
    (applyDayOffsets lines).length = lines.length := by
  induction lines with
  | nil => rfl
  | cons cl rest ih => simp [applyDayOffsets, ih]

theorem countP_drop_le (p : CSVLine → Bool) (l : List CSVLine) (n : ℕ) :
    (l.drop n).countP p ≤ l.countP p := by
  conv_rhs => rw [← List.take_append_drop n l]
  rw [List.countP_append]
  omega

/-- C5: after parsing, `load_csv` gives each record a whole-second offset
equal to the number of later records on the same calendar day (so the last
row of a day gets 0, the second-to-last 1, and so on), and — since parsed
records start at midnight — any two same-day records end up with distinct,
strictly ordered timestamps (later rows strictly earlier within the day). -/
theorem c5_same_day_offsets (lines : List CSVLine)
    (h0 : ∀ cl ∈ lines, cl.date.secs = 0) :
    (applyDayOffsets lines).length = lines.length ∧
    (∀ (i : ℕ) (a : CSVLine), lines.get? i = some a →
      (applyDayOffsets lines).get? i
        = some (addSecs a ((lines.drop (i + 1)).countP
            (fun c => decide (dayKey c.date = dayKey a.date))))) ∧
    (∀ (i j : ℕ) (a b : CSVLine), i < j →
      lines.get? i = some a → lines.get? j = some b →
      dayKey a.date = dayKey b.date →
      ∃ a' b', (applyDayOffsets lines).get? i = some a' ∧
        (applyDayOffsets lines).get? j = some b' ∧
        dayKey a'.date = dayKey a.date ∧ dayKey b'.date = dayKey b.date ∧
        b'.date.secs < a'.date.secs) := by
  refine ⟨applyDayOffsets_length lines, applyDayOffsets_get lines,
    fun i j a b hij ha hb hk => ?_⟩
  have hja : dayKey b.date = dayKey a.date := hk.symm
  refine ⟨_, _, applyDayOffsets_get lines i a ha, applyDayOffsets_get lines j b hb,
    dayKey_addSecs _ _, dayKey_addSecs _ _, ?_⟩
  rw [secs_addSecs, secs_addSecs, h0 a (List.get?_mem ha), h0 b (List.get?_mem hb)]
  simp only [Nat.zero_add]
  -- the count of later same-day records strictly shrinks from i to j
  have hcongr : (lines.drop (j + 1)).countP
        (fun c => decide (dayKey c.date = dayKey b.date))
      = (lines.drop (j + 1)).countP
        (fun c => decide (dayKey c.date = dayKey a.date)) := by
    refine List.countP_congr (fun x hx => ?_)
    simp [hk]
  rw [hcongr]
  have hjlt : j < lines.length := by
    by_contra hge
    rw [List.get?_eq_none.mpr (by omega)] at hb
    exact Option.noConfusion hb
  have hdropj : lines.drop j = b :: lines.drop (j + 1) := by
    have := List.drop_eq_getElem_cons hjlt
    rw [this]
    congr 1
    have := List.get?_eq_getElem? lines j
    rw [List.getElem?_eq_getElem hjlt] at this
    rw [this] at hb
    exact (Option.some.injEq _ _ ▸ hb).symm ▸ rfl
  have hcount_j : (lines.drop j).countP (fun c => decide (dayKey c.date = dayKey a.date))
      = (lines.drop (j + 1)).countP (fun c => decide (dayKey c.date = dayKey a.date)) + 1 := by
    rw [hdropj, List.countP_cons]
    simp [hja]
  have hsub : lines.drop j = (lines.drop (i + 1)).drop (j - (i + 1)) := by
    rw [List.drop_drop]
    congr 1
    omega
  have hle : (lines.drop j).countP (fun c => decide (dayKey c.date = dayKey a.date))
      ≤ (lines.drop (i + 1)).countP (fun c => decide (dayKey c.date = dayKey a.date)) := by
    rw [hsub]
    exact countP_drop_le _ _ _
  omega

/-- Witness for C5 at a concrete three-row day mix: two records on one day
and one on another. -/
theorem c5_witness :
    ∃ a' b',
      (applyDayOffsets
        [sampleLine Action.BUY "A" 1 1,
         ⟨"02/09/2022", ⟨2022, 2, 9, 0⟩, Action.BUY, "B", "d", some 1, 1, 0, 0⟩,
         sampleLine Action.SELL "C" 1 1]).get? 0 = some a' ∧
      (applyDayOffsets
        [sampleLine Action.BUY "A" 1 1,
         ⟨"02/09/2022", ⟨2022, 2, 9, 0⟩, Action.BUY, "B", "d", some 1, 1, 0, 0⟩,
         sampleLine Action.SELL "C" 1 1]).get? 2 = some b' ∧
      dayKey a'.date = dayKey (sampleLine Action.BUY "A" 1 1).date ∧
      dayKey b'.date = dayKey (sampleLine Action.SELL "C" 1 1).date ∧
      b'.date.secs < a'.date.secs := by
  have h := (c5_same_day_offsets
    [sampleLine Action.BUY "A" 1 1,
     ⟨"02/09/2022", ⟨2022, 2, 9, 0⟩, Action.BUY, "B", "d", some 1, 1, 0, 0⟩,
     sampleLine Action.SELL "C" 1 1] (by decide)).2.2 0 2
    (sampleLine Action.BUY "A" 1 1) (sampleLine Action.SELL "C" 1 1)
    (by decide) (by decide) (by decide) (by decide)
  exact h

/-! ### Theorems: load_csv error taxonomy -/

theorem processRow_eq_parse (row : List String) (lnum : ℕ) (hlen : 2 ≤ row.length)
    (hhead : ¬ (((row.take 8).all (fun l => ¬ isNumericStr l)) ∧ lnum < 3))
    (hfoot : row.headD "" ≠ "Transactions Total") :
    processRow row lnum = classify (init_from_str_array (row.take 8)) := by
  rw [processRow]
  rw [if_neg (by omega), if_neg (by omega), if_neg hhead,
    if_neg (by rw [headD_take8]; exact hfoot)]

theorem loadGo_rowError {fname : String} {lnum : ℕ} {row : List String}
    (rest : List (List String)) (h : processRow row lnum = .rowError) :
    loadGo fname lnum (row :: rest) =
      { records := (loadGo fname (lnum + 1) rest).records,
        errors := (fname, lnum) :: (loadGo fname (lnum + 1) rest).errors,
        aborted := (loadGo fname (lnum + 1) rest).aborted } := by
  rw [loadGo, h]

theorem loadGo_assertAbort {fname : String} {lnum : ℕ} {row : List String}
    (rest : List (List String)) (h : processRow row lnum = .assertAbort) :
    loadGo fname lnum (row :: rest) = ⟨[], [(fname, lnum)], some lnum⟩ := by
  rw [loadGo, h]

theorem init_unknown_action {f0 f1 : String} (rs : List String) {s0 : String} {d : DateTime}
    (hstrip : stripAsOf f0 = .ok s0) (hdate : parseDateMDY s0 = some d)
    (hact : Action.from_string f1 = none) :
    init_from_str_array (f0 :: f1 :: rs) = .error .valueErr := by
  unfold init_from_str_array
  simp [fieldAt, hstrip, hdate, hact, Except.bind, bind]

theorem parse_price_no_dollar {s : List Char} (hne : s ≠ []) (hne2 : afterSign s ≠ [])
    (hh : (afterSign s).head? ≠ some (Char.ofNat 36)) :
    parse_price s = .error .assertErr := by
  obtain ⟨c, rest, hcr⟩ := List.exists_cons_of_ne_nil hne2
  by_cases hm : s.head? = some (Char.ofNat 45)
  · rw [afterSign, if_pos hm] at hcr hh
    rw [parse_price, if_neg hne, if_pos hm, hcr]
    rw [hcr, List.head?_cons] at hh
    rw [parsePriceMag, if_neg (by simpa using hh)]
    rfl
  · rw [afterSign, if_neg hm] at hcr hh
    rw [parse_price, if_neg hne, if_neg hm, hcr]
    rw [hcr, List.head?_cons] at hh
    rw [parsePriceMag, if_neg (by simpa using hh)]
    rfl

theorem init_assert_price {f0 f1 f2 f3 f4 f5 f6 f7 s0 : String} {d : DateTime}
    {a : Action} {q : ℚ}
    (hstrip : stripAsOf f0 = .ok s0) (hdate : parseDateMDY s0 = some d)
    (hact : Action.from_string f1 = some a)
    (hqlen : f4.length > 0) (hq : parseDec f4.toList = some q)
    (hp : parse_price f5.toList = .error .assertErr) :
    init_from_str_array [f0, f1, f2, f3, f4, f5, f6, f7] = .error .assertErr := by
  unfold init_from_str_array
  simp [fieldAt, hstrip, hdate, hact, hqlen, Except.bind, bind,
    show parseDec f4.data = some q from hq,
    show parse_price f5.data = Except.error PErr.assertErr from hp]

/-- C6: a row with an unrecognized action text is a row-level error — the
row is dropped, the error is logged with file name and line number, and the
rest of the file is still processed — whereas a non-empty price-like field
without its `$` marker raises the assertion, which aborts the whole file at
that line (no records are returned). -/
theorem c6_error_taxonomy :
    (∀ (fname : String) (lnum : ℕ) (f0 f1 : String) (rs : List String)
        (rest : List (List String)) (s0 : String) (d : DateTime),
      ¬ ((((f0 :: f1 :: rs).take 8).all (fun l => ¬ isNumericStr l)) ∧ lnum < 3) →
      f0 ≠ "Transactions Total" →
      stripAsOf f0 = .ok s0 → parseDateMDY s0 = some d →
      Action.from_string f1 = none →
      processRow (f0 :: f1 :: rs) lnum = .rowError ∧
      loadGo fname lnum ((f0 :: f1 :: rs) :: rest) =
        { records := (loadGo fname (lnum + 1) rest).records,
          errors := (fname, lnum) :: (loadGo fname (lnum + 1) rest).errors,
          aborted := (loadGo fname (lnum + 1) rest).aborted }) ∧
    (∀ (fname : String) (lnum : ℕ) (row : List String) (rest : List (List String)),
      2 ≤ row.length →
      ¬ (((row.take 8).all (fun l => ¬ isNumericStr l)) ∧ lnum < 3) →
      row.headD "" ≠ "Transactions Total" →
      init_from_str_array (row.take 8) = .error .assertErr →
      processRow row lnum = .assertAbort ∧
      loadGo fname lnum (row :: rest) = ⟨[], [(fname, lnum)], some lnum⟩) ∧
    (∀ s : List Char, s ≠ [] → afterSign s ≠ [] →
      (afterSign s).head? ≠ some (Char.ofNat 36) →
      parse_price s = .error .assertErr) ∧
    (∀ (f0 f1 f2 f3 f4 f5 f6 f7 s0 : String) (d : DateTime) (a : Action) (q : ℚ),
      stripAsOf f0 = .ok s0 → parseDateMDY s0 = some d →
      Action.from_string f1 = some a → f4.length > 0 → parseDec f4.toList = some q →
      parse_price f5.toList = .error .assertErr →
      init_from_str_array [f0, f1, f2, f3, f4, f5, f6, f7] = .error .assertErr) := by
  refine ⟨fun fname lnum f0 f1 rs rest s0 d hh hf hs hdte ha => ?_,
    fun fname lnum row rest hlen hh hf hinit => ?_,
    fun s h1 h2 h3 => parse_price_no_dollar h1 h2 h3,
    fun f0 f1 f2 f3 f4 f5 f6 f7 s0 d a q hs hdte ha hql hq hp =>
      init_assert_price hs hdte ha hql hq hp⟩
  · have hp := processRow_eq_parse (f0 :: f1 :: rs) lnum (by simp) hh (by simpa using hf)
    have htake : (f0 :: f1 :: rs).take 8 = f0 :: f1 :: rs.take 6 := rfl
    have hinit : init_from_str_array ((f0 :: f1 :: rs).take 8) = .error .valueErr := by
      rw [htake]
      exact init_unknown_action _ hs hdte ha
    have hrow : processRow (f0 :: f1 :: rs) lnum = .rowError := by
      rw [hp, hinit]
      rfl
    exact ⟨hrow, loadGo_rowError rest hrow⟩
  · have hp := processRow_eq_parse row lnum hlen hh hf
    have hrow : processRow row lnum = .assertAbort := by
      rw [hp, hinit]
      rfl
    exact ⟨hrow, loadGo_assertAbort rest hrow⟩

/-- Witness for C6: a bogus-action row is logged and skipped while later
rows still parse; a dollar-less price row aborts the file at its line. -/
theorem c6_witness :
    (processRow ["03/17/2022", "Bogus Action", "S"] 5 = .rowError ∧
      loadGo "f.csv" 5 [["03/17/2022", "Bogus Action", "S"]] =
        { records := (loadGo "f.csv" 6 []).records,
          errors := ("f.csv", 5) :: (loadGo "f.csv" 6 []).errors,
          aborted := (loadGo "f.csv" 6 []).aborted }) ∧
    (processRow ["03/17/2022", "Sell to Open", "S", "d", "1", "1", "$0", "$1"] 4
        = .assertAbort ∧
      loadGo "f.csv" 4 [["03/17/2022", "Sell to Open", "S", "d", "1", "1", "$0", "$1"]]
        = ⟨[], [("f.csv", 4)], some 4⟩) :=
  ⟨c6_error_taxonomy.1 "f.csv" 5 "03/17/2022" "Bogus Action" ["S"] [] "03/17/2022"
      ⟨2022, 3, 17, 0⟩ (by decide) (by decide) (by decide) (by decide) (by decide),
   c6_error_taxonomy.2.1 "f.csv" 4 ["03/17/2022", "Sell to Open", "S", "d", "1", "1", "$0", "$1"]
      [] (by decide) (by decide) (by decide) (by decide)⟩

/-! ### Theorems: filter engine (spec-modelled) -/

theorem matchesFilter_iff (f : Filter) (d : TransDoc) :
    matchesFilter f d = true ↔
      (d.underlying.isSome = true ∧
        (d.action = "BUY_TO_OPEN" ∨ d.action = "SELL_TO_OPEN" ∨
          d.action = "BUY_TO_CLOSE" ∨ d.action = "SELL_TO_CLOSE") ∧
        (∀ pat, f.symbol = some pat → matchesRegexCI pat d.symbol = true) ∧
        (∀ u du, f.underlying = some u → d.underlying = some du →
          u.toList.map Char.toLower = du.toList.map Char.toLower) ∧
        (∀ st, f.range.start = some st → dtLE st d.date = true) ∧
        (∀ en, f.range.stop = some en → dtLE d.date en = true)) := by
  rcases f with ⟨fs, fu, rs, re⟩
  unfold matchesFilter
  cases fs <;> cases fu <;> cases rs <;> cases re <;> cases hdu : d.underlying <;>
    simp [hdu, Bool.and_eq_true] <;> tauto

/-- C7 (spec-modelled): the filtered query returns exactly the option
records (underlying present) of the four open/close kinds satisfying every
set filter component — case-insensitive regex on symbol, case-insensitive
exact underlying, inclusive date bounds — an unset component imposing no
restriction; with the spec's concrete PRU examples. -/
theorem c7_filter_semantics :
    (∀ (f : Filter) (docs : List TransDoc) (d : TransDoc),
      d ∈ queryFilter f docs ↔
        (d ∈ docs ∧ d.underlying.isSome = true ∧
          (d.action = "BUY_TO_OPEN" ∨ d.action = "SELL_TO_OPEN" ∨
            d.action = "BUY_TO_CLOSE" ∨ d.action = "SELL_TO_CLOSE") ∧
          (∀ pat, f.symbol = some pat → matchesRegexCI pat d.symbol = true) ∧
          (∀ u du, f.underlying = some u → d.underlying = some du →
            u.toList.map Char.toLower = du.toList.map Char.toLower) ∧
          (∀ st, f.range.start = some st → dtLE st d.date = true) ∧
          (∀ en, f.range.stop = some en → dtLE d.date en = true))) ∧
    queryFilter ⟨some "PRU 03/18/2022.*", none, {}⟩ [pruDoc100, pruDoc110]
      = [pruDoc100, pruDoc110] ∧
    queryFilter ⟨some "PRU 03/18/2022 110.00 P", none, {}⟩ [pruDoc100, pruDoc110]
      = [pruDoc110] ∧
    queryFilter ⟨none, some "PRU", {}⟩ [pruDoc100, pruDoc110] = [pruDoc100, pruDoc110] ∧
    queryFilter ⟨none, some "pru", {}⟩ [pruDoc100, pruDoc110] = [pruDoc100, pruDoc110] ∧
    queryFilter ⟨none, some "P", {}⟩ [pruDoc100, pruDoc110] = [] ∧
    queryFilter ⟨none, none, ⟨some ⟨2022, 2, 8, 0⟩, none⟩⟩ [pruDoc100, pruDoc110]
      = [pruDoc110] ∧
    queryFilter ⟨none, none, ⟨none, some ⟨2022, 2, 8, 0⟩⟩⟩ [pruDoc100, pruDoc110]
      = [pruDoc100] ∧
    queryFilter ⟨none, none, {}⟩ [pruDoc100, pruDoc110] = [pruDoc100, pruDoc110] := by
  refine ⟨fun f docs d => ?_, by decide, by decide, by decide, by decide, by decide,
    by decide, by decide, by decide⟩
  rw [queryFilter, List.mem_filter, matchesFilter_iff]

/-- Witness for C7: the characterization applied to a singleton store. -/
theorem c7_witness :
    pruDoc100 ∈ queryFilter ⟨some "PRU.*", none, {}⟩ [pruDoc100] :=
  (c7_filter_semantics.1 ⟨some "PRU.*", none, {}⟩ [pruDoc100] pruDoc100).mpr
    ⟨by decide, by decide, by decide,
     fun pat hpat => by injection hpat with h; subst h; decide,
     fun u du hu => Option.noConfusion hu,
     fun st hst => Option.noConfusion hst,
     fun en hen => Option.noConfusion hen⟩

/-! ### Theorems: stored-document round trip -/

theorem ofName_pyName (a : Action) : Action.ofName a.pyName = some a := by
  cases a <;> rfl

theorem buildDoc_fields {l : CSVLine} {now : DateTime} {doc : TransDoc}
    (h : buildDoc l now = some doc) :
    doc.date = l.date ∧ doc.action = l.action.pyName ∧ doc.symbol = l.symbol ∧
    doc.desc = l.desc ∧ doc.quantity = quantityStr l.quantity ∧
    doc.price = String.mk (format_price l.price) ∧
    doc.fees = String.mk (format_price l.fees) ∧
    doc.amount = String.mk (format_price l.amount) := by
  unfold buildDoc at h
  split at h
  · split at h
    · injection h with h
      subst h
      exact ⟨rfl, rfl, rfl, rfl, rfl, rfl, rfl, rfl⟩
    · exact Option.noConfusion h
  · injection h with h
    subst h
    exact ⟨rfl, rfl, rfl, rfl, rfl, rfl, rfl, rfl⟩

/-- C8 amended: a record with a present quantity stored by `import_csv`
and re-derived from its stored document by `init_from_transaction` agrees
with the original parsed record on date, action, symbol, description,
quantity, price, fees and amount — the payload fields all round-trip
through the stored string encodings.  (A quantity-less record is stored
but not re-derivable, as the counterexample shows.) -/
theorem c8_round_trip (l : CSVLine) (now : DateTime) (q : ℚ)
    (hq : l.quantity = some q) (hdq : IsDec q) (hdp : IsDec l.price)
    (hdf : IsDec l.fees) (hda : IsDec l.amount)
    (hb : (buildDoc l now).isSome) :
    ∃ doc l', buildDoc l now = some doc ∧ init_from_transaction doc = some l' ∧
      l'.date = l.date ∧ l'.action = l.action ∧ l'.symbol = l.symbol ∧
      l'.desc = l.desc ∧ l'.quantity = l.quantity ∧ l'.price = l.price ∧
      l'.fees = l.fees ∧ l'.amount = l.amount := by
  obtain ⟨doc, hdoc⟩ := Option.isSome_iff_exists.mp hb
  obtain ⟨hd1, hd2, hd3, hd4, hd5, hd6, hd7, hd8⟩ := buildDoc_fields hdoc
  have hcl : init_from_transaction doc
      = some ⟨fmtDateMDY doc.date, doc.date, l.action, doc.symbol, doc.desc,
          some q, l.price, l.fees, l.amount⟩ := by
    unfold init_from_transaction
    rw [hd2, hd5, hd6, hd7, hd8, hq]
    simp [quantityStr, ofName_pyName, Option.bind, bind, Except.toOption,
      show parseDec (String.mk (fmtDec q)).data = some q from parseDec_fmtDec hdq,
      show parse_price (String.mk (format_price l.price)).data = .ok l.price from
        parse_price_format_price hdp,
      show parse_price (String.mk (format_price l.fees)).data = .ok l.fees from
        parse_price_format_price hdf,
      show parse_price (String.mk (format_price l.amount)).data = .ok l.amount from
        parse_price_format_price hda]
  exact ⟨doc, _, hdoc, hcl, hd1, rfl, hd3, hd4, hq.symm, rfl, rfl, rfl⟩

/-- Witness for C8 at a concrete non-option line. -/
theorem c8_witness :
    ∃ doc l', buildDoc (sampleLine Action.EXPIRED "XYZ" 1 5) ⟨2022, 1, 1, 0⟩ = some doc ∧
      init_from_transaction doc = some l' ∧
      l'.date = (sampleLine Action.EXPIRED "XYZ" 1 5).date ∧
      l'.action = (sampleLine Action.EXPIRED "XYZ" 1 5).action ∧
      l'.symbol = (sampleLine Action.EXPIRED "XYZ" 1 5).symbol ∧
      l'.desc = (sampleLine Action.EXPIRED "XYZ" 1 5).desc ∧
      l'.quantity = (sampleLine Action.EXPIRED "XYZ" 1 5).quantity ∧
      l'.price = (sampleLine Action.EXPIRED "XYZ" 1 5).price ∧
      l'.fees = (sampleLine Action.EXPIRED "XYZ" 1 5).fees ∧
      l'.amount = (sampleLine Action.EXPIRED "XYZ" 1 5).amount :=
  c8_round_trip (sampleLine Action.EXPIRED "XYZ" 1 5) ⟨2022, 1, 1, 0⟩ 1 rfl
    ⟨0, 0, by decide⟩ ⟨0, 0, by decide⟩ ⟨0, 0, by decide⟩ ⟨0, 0, by decide⟩ (by decide)

/-- C8 as frozen is refuted at a quantity-less record: an expiration row
with an empty quantity field parses to a record with no quantity, which
`import_csv` persists (its quantity stored as the text `"None"`), but
`init_from_transaction` on the stored document yields no record at all
(`Decimal("None")` raises `InvalidOperation`), so re-derivation cannot
equal the original parsed record. -/
theorem c8_counterexample :
    init_from_str_array ["01/01/2022", "Expired", "XYZ", "desc", "", "$5", "$0", "$0"]
        = .ok c8noneLine ∧
    (import_csv (fun i => ⟨2022, 1, 1, i⟩) [c8noneLine] []).map
        (fun s => s.map (fun e => init_from_transaction e.2.payload)) = some [none] := by
  constructor
  · simp +decide only [init_from_str_array, fieldAt, stripAsOf, parse_price, parsePriceMag,
      parseDec, parseUDec, parseDateMDY, parseField, splitOnSeq, splitGo, isSeqPrefix,
      Action.from_string, parseNatCore, charVal, Except.bind, bind, c8noneLine]
    norm_num
    constructor
  · decide

/-! ### Theorems: idempotent import -/

theorem buildDoc_isSome_any {l : CSVLine} {t : DateTime} {p : TransDoc}
    (h : buildDoc l t = some p) (t' : DateTime) : (buildDoc l t').isSome := by
  unfold buildDoc at h ⊢
  by_cases ho : l.is_option
  · rw [if_pos ho] at h ⊢
    cases htok : optionTokens l.symbol with
    | none =>
      rw [htok] at h
      exact Option.noConfusion h
    | some t4 =>
      obtain ⟨t0, t1, t2, t3⟩ := t4
      rfl
  · rw [if_neg ho] at h ⊢
    rfl

theorem upsert_mem {store : Store} {k : String} (h : k ∈ storeKeys store)
    (p : TransDoc) (t : DateTime) :
    stripStore (upsert store k p t) = stripStore store ∧
      storeKeys (upsert store k p t) = storeKeys store ∧
      (upsert store k p t).length = store.length := by
  induction store with
  | nil => simp [storeKeys] at h
  | cons e rest ih =>
    obtain ⟨k', r⟩ := e
    by_cases hk : k' = k
    · subst hk
      simp [upsert, stripStore, storeKeys]
    · rw [storeKeys, List.map_cons] at h
      have hmem : k ∈ storeKeys rest := by
        rcases List.mem_cons.mp h with h1 | h1
        · exact absurd h1.symm hk
        · exact h1
      have ih' := ih hmem
      rw [upsert]
      rw [if_neg hk]
      simp only [stripStore, storeKeys, List.map_cons, List.length_cons] at ih' ⊢
      rw [ih'.1, ih'.2.1, ih'.2.2]
      exact ⟨rfl, rfl, rfl⟩

theorem upsert_not_mem {store : Store} {k : String} (h : k ∉ storeKeys store)
    (p : TransDoc) (t : DateTime) :
    upsert store k p t = store ++ [(k, ⟨p, t⟩)] := by
  induction store with
  | nil => rfl
  | cons e rest ih =>
    obtain ⟨k', r⟩ := e
    rw [storeKeys, List.map_cons] at h
    have hk : k' ≠ k := by
      intro hc
      exact h (by rw [hc]; exact List.mem_cons_self _ _)
    have hmem : k ∉ storeKeys rest := fun hc => h (List.mem_cons_of_mem _ hc)
    rw [upsert, if_neg hk, ih hmem]
    rfl

theorem mem_keys_upsert {store : Store} {k k' : String} (p : TransDoc) (t : DateTime)
    (h : k' ∈ storeKeys store ∨ k' = k) :
    k' ∈ storeKeys (upsert store k p t) := by
  by_cases hk : k ∈ storeKeys store
  · rw [(upsert_mem hk p t).2.1]
    rcases h with h | h
    · exact h
    · rw [h]; exact hk
  · rw [upsert_not_mem hk p t, storeKeys, List.map_append]
    rcases h with h | h
    · exact List.mem_append_left _ h
    · rw [h]; exact List.mem_append_right _ (by simp [storeKeys])

theorem importGo_keys_mono {c : ℕ → DateTime} {lines : List CSVLine} :
    ∀ {i : ℕ} {store store' : Store}, importGo c i store lines = some store' →
      ∀ k, k ∈ storeKeys store → k ∈ storeKeys store' := by
  induction lines with
  | nil =>
    intro i store store' h k hk
    rw [importGo] at h
    injection h with h
    rw [← h]
    exact hk
  | cons l rest ih =>
    intro i store store' h k hk
    rw [importGo] at h
    by_cases ha : l.action ∈ storedActions
    · rw [if_pos ha] at h
      cases hb : buildDoc l (c i) with
      | none => rw [hb] at h; exact Option.noConfusion h
      | some p =>
        rw [hb] at h
        exact ih h k (mem_keys_upsert p (c i) (Or.inl hk))
    · rw [if_neg ha] at h
      exact ih h k hk

theorem importGo_key_present {c : ℕ → DateTime} {lines : List CSVLine} :
    ∀ {i : ℕ} {store store' : Store}, importGo c i store lines = some store' →
      ∀ l ∈ lines, l.action ∈ storedActions → l.key ∈ storeKeys store' := by
  induction lines with
  | nil => intro i store store' h l hl; simp at hl
  | cons l0 rest ih =>
    intro i store store' h l hl ha
    rw [importGo] at h
    rcases List.mem_cons.mp hl with rfl | hl'
    · rw [if_pos ha] at h
      cases hb : buildDoc l (c i) with
      | none => rw [hb] at h; exact Option.noConfusion h
      | some p =>
        rw [hb] at h
        exact importGo_keys_mono h _ (mem_keys_upsert p (c i) (Or.inr rfl))
    · by_cases ha0 : l0.action ∈ storedActions
      · rw [if_pos ha0] at h
        cases hb : buildDoc l0 (c i) with
        | none => rw [hb] at h; exact Option.noConfusion h
        | some p =>
          rw [hb] at h
          exact ih h l hl' ha
      · rw [if_neg ha0] at h
        exact ih h l hl' ha

theorem importGo_builds {c : ℕ → DateTime} {lines : List CSVLine} :
    ∀ {i : ℕ} {store store' : Store}, importGo c i store lines = some store' →
      ∀ l ∈ lines, l.action ∈ storedActions → ∀ t, (buildDoc l t).isSome := by
  induction lines with
  | nil => intro i store store' h l hl; simp at hl
  | cons l0 rest ih =>
    intro i store store' h l hl ha t
    rw [importGo] at h
    rcases List.mem_cons.mp hl with rfl | hl'
    · rw [if_pos ha] at h
      cases hb : buildDoc l (c i) with
      | none => rw [hb] at h; exact Option.noConfusion h
      | some p => exact buildDoc_isSome_any hb t
    · by_cases ha0 : l0.action ∈ storedActions
      · rw [if_pos ha0] at h
        cases hb : buildDoc l0 (c i) with
        | none => rw [hb] at h; exact Option.noConfusion h
        | some p =>
          rw [hb] at h
          exact ih h l hl' ha t
      · rw [if_neg ha0] at h
        exact ih h l hl' ha t

theorem importGo_idem {c : ℕ → DateTime} {lines : List CSVLine} :
    ∀ {i : ℕ} {store : Store},
      (∀ l ∈ lines, l.action ∈ storedActions → l.key ∈ storeKeys store) →
      (∀ l ∈ lines, l.action ∈ storedActions → ∀ t, (buildDoc l t).isSome) →
      ∃ store', importGo c i store lines = some store' ∧
        stripStore store' = stripStore store ∧ storeKeys store' = storeKeys store := by
  induction lines with
  | nil => intro i store _ _; exact ⟨store, rfl, rfl, rfl⟩
  | cons l rest ih =>
    intro i store hkeys hbuild
    by_cases ha : l.action ∈ storedActions
    · have hb := hbuild l (List.mem_cons_self _ _) ha (c i)
      obtain ⟨p, hp⟩ := Option.isSome_iff_exists.mp hb
      have hkmem : l.key ∈ storeKeys store := hkeys l (List.mem_cons_self _ _) ha
      have hup := upsert_mem hkmem p (c i)
      have hkeys' : ∀ l' ∈ rest, l'.action ∈ storedActions →
          l'.key ∈ storeKeys (upsert store l.key p (c i)) := by
        intro l' hl' ha'
        rw [hup.2.1]
        exact hkeys l' (List.mem_cons_of_mem _ hl') ha'
      have hbuild' : ∀ l' ∈ rest, l'.action ∈ storedActions → ∀ t, (buildDoc l' t).isSome :=
        fun l' hl' ha' t => hbuild l' (List.mem_cons_of_mem _ hl') ha' t
      obtain ⟨store', hs', hstrip', hkeys''⟩ := ih hkeys' hbuild'
      refine ⟨store', ?_, ?_, ?_⟩
      · rw [importGo, if_pos ha, hp]
        exact hs'
      · rw [hstrip', hup.1]
      · rw [hkeys'', hup.2.1]
    · have hkeys' : ∀ l' ∈ rest, l'.action ∈ storedActions → l'.key ∈ storeKeys store :=
        fun l' hl' ha' => hkeys l' (List.mem_cons_of_mem _ hl') ha'
      have hbuild' : ∀ l' ∈ rest, l'.action ∈ storedActions → ∀ t, (buildDoc l' t).isSome :=
        fun l' hl' ha' t => hbuild l' (List.mem_cons_of_mem _ hl') ha' t
      obtain ⟨store', hs', hstrip', hkeys''⟩ := ih hkeys' hbuild'
      refine ⟨store', ?_, hstrip', hkeys''⟩
      rw [importGo, if_neg ha]
      exact hs'

/-- C1: importing the same parsed records twice leaves the store with the
same record count and the same `_id`s and payload field values (including
`insertion_date`) as importing them once — a later upsert of an existing
natural key only refreshes `last_update_date`, while a first upsert of a
new key appends the full record with its insertion timestamp. -/
theorem c1_idempotent_import (lines : List CSVLine) (c1 c2 : ℕ → DateTime) (s1 : Store)
    (h : import_csv c1 lines [] = some s1) :
    (∃ s2, import_csv c2 lines s1 = some s2 ∧ s2.length = s1.length ∧
      stripStore s2 = stripStore s1) ∧
    (∀ (s : Store) (k : String) (p : TransDoc) (t : DateTime), k ∉ storeKeys s →
      upsert s k p t = s ++ [(k, ⟨p, t⟩)]) ∧
    (∀ (s : Store) (k : String) (p : TransDoc) (t : DateTime), k ∈ storeKeys s →
      stripStore (upsert s k p t) = stripStore s ∧ (upsert s k p t).length = s.length) := by
  refine ⟨?_, fun s k p t hk => upsert_not_mem hk p t,
    fun s k p t hk => ⟨(upsert_mem hk p t).1, (upsert_mem hk p t).2.2⟩⟩
  have hkeys := @importGo_key_present c1 lines 0 [] s1 h
  have hbuild := @importGo_builds c1 lines 0 [] s1 h
  obtain ⟨s2, hs2, hstrip, _⟩ := @importGo_idem c2 lines 0 s1 hkeys hbuild
  refine ⟨s2, hs2, ?_, hstrip⟩
  have h1 : s2.length = (stripStore s2).length := by simp [stripStore]
  have h2 : s1.length = (stripStore s1).length := by simp [stripStore]
  rw [h1, h2, hstrip]

/-- Witness for C1: a one-line import executed twice. -/
theorem c1_witness :
    ∃ s1 s2, import_csv (fun i => ⟨2022, 1, 1, i⟩) [sampleLine Action.EXPIRED "XYZ" 1 5] []
        = some s1 ∧
      import_csv (fun i => ⟨2023, 5, 5, i⟩) [sampleLine Action.EXPIRED "XYZ" 1 5] s1
        = some s2 ∧
      s2.length = s1.length ∧ stripStore s2 = stripStore s1 := by
  have h1 : (import_csv (fun i => ⟨2022, 1, 1, i⟩)
      [sampleLine Action.EXPIRED "XYZ" 1 5] []).isSome := by decide
  obtain ⟨s1, hs1⟩ := Option.isSome_iff_exists.mp h1
  obtain ⟨⟨s2, hs2, hlen, hstrip⟩, -, -⟩ :=
    c1_idempotent_import [sampleLine Action.EXPIRED "XYZ" 1 5]
      (fun i => ⟨2022, 1, 1, i⟩) (fun i => ⟨2023, 5, 5, i⟩) s1 hs1
  exact ⟨s1, s2, hs1, hs2, hlen, hstrip⟩

/-! ### Theorems: position reconstruction -/

theorem posStep_new (st : PosState) (x : TransDoc) (cl : CSVLine)
    (hinit : init_from_transaction x = some cl)
    (hopen : openFor st x.symbol = some none) :
    posStep st x = some ⟨st.positions ++ [⟨Strategy.CUSTOM, [⟨x.symbol, [cl]⟩]⟩],
      setMap st.openMap x.symbol st.positions.length⟩ := by
  unfold posStep
  rw [hinit, hopen]
  simp [Option.bind, Position.add_leg, addLegAux]

theorem posStep_existing (st : PosState) (x : TransDoc) (cl : CSVLine) (i : ℕ) (p : Position)
    (hinit : init_from_transaction x = some cl)
    (hopen : openFor st x.symbol = some (some i))
    (hget : st.positions.get? i = some p) :
    posStep st x = some ⟨st.positions.set i (p.add_leg ⟨x.symbol, [cl]⟩), st.openMap⟩ := by
  unfold posStep
  rw [hinit, hopen]
  simp [Option.bind, show st.positions[i]? = some p from by
    rw [← List.get?_eq_getElem?]; exact hget]

theorem openFor_closed (st : PosState) (s : String) (i : ℕ) (p : Position)
    (hlook : lookupMap st.openMap s = some i)
    (hget : st.positions.get? i = some p)
    (hclosed : p.is_closed = some true) :
    openFor st s = some none := by
  unfold openFor
  rw [hlook]
  dsimp only
  rw [hget]
  dsimp only
  rw [hclosed]
  rfl

theorem c4init (a : Action) : init_from_transaction (c4doc a) = some (c4line a) := by
  cases a <;>
    simp [init_from_transaction, c4doc, c4line, sampleDoc, Action.ofName, Action.allActions,
      Action.pyName, parse_price, parsePriceMag, parseDec, parseUDec, parseNatCore, charVal,
      fmtDateMDY, fmtNatPad, fmtNat, Except.toOption, Except.map] <;> rfl

/-- C4: a record whose symbol has no currently open position starts a fresh
CUSTOM position appended in creation order; a record whose symbol has an
open position is appended to that position's leg for the exact symbol; a
position that has become all-closed no longer counts as open; and the
sequence [open, close, open] on one symbol yields exactly two positions,
the first closed and the second open with a single line. -/
theorem c4_position_grouping :
    (∀ (st : PosState) (x : TransDoc) (cl : CSVLine),
      init_from_transaction x = some cl → openFor st x.symbol = some none →
      posStep st x = some ⟨st.positions ++ [⟨Strategy.CUSTOM, [⟨x.symbol, [cl]⟩]⟩],
        setMap st.openMap x.symbol st.positions.length⟩) ∧
    (∀ (st : PosState) (x : TransDoc) (cl : CSVLine) (i : ℕ) (p : Position),
      init_from_transaction x = some cl → openFor st x.symbol = some (some i) →
      st.positions.get? i = some p →
      posStep st x = some ⟨st.positions.set i (p.add_leg ⟨x.symbol, [cl]⟩), st.openMap⟩) ∧
    (∀ (st : PosState) (s : String) (i : ℕ) (p : Position),
      lookupMap st.openMap s = some i → st.positions.get? i = some p →
      p.is_closed = some true → openFor st s = some none) ∧
    (∃ p1 p2, get_positions
        [c4doc Action.SELL_TO_OPEN, c4doc Action.BUY_TO_CLOSE, c4doc Action.SELL_TO_OPEN]
        = some [p1, p2] ∧
      p1.is_closed = some true ∧ p2.is_closed = some false ∧
      p1.strategy = Strategy.CUSTOM ∧ p2.strategy = Strategy.CUSTOM ∧
      p1.legs = [⟨"XS", [c4line Action.SELL_TO_OPEN, c4line Action.BUY_TO_CLOSE]⟩] ∧
      p2.legs = [⟨"XS", [c4line Action.SELL_TO_OPEN]⟩]) := by
  refine ⟨posStep_new, posStep_existing, openFor_closed, ?_⟩
  have hleg1 : (Leg.mk "XS" [c4line Action.SELL_TO_OPEN]).is_closed = some false := by
    simp [Leg.is_closed, Leg.quantity_sum, qsumGo, c4line]
  have hleg2 : (Leg.mk "XS"
      [c4line Action.SELL_TO_OPEN, c4line Action.BUY_TO_CLOSE]).is_closed = some true := by
    simp [Leg.is_closed, Leg.quantity_sum, qsumGo, c4line]
  have hcl1 : (Position.mk Strategy.CUSTOM
      [⟨"XS", [c4line Action.SELL_TO_OPEN]⟩]).is_closed = some false := by
    simp [Position.is_closed, List.mapM, List.mapM.loop, hleg1]
  have hcl2 : (Position.mk Strategy.CUSTOM
      [⟨"XS", [c4line Action.SELL_TO_OPEN, c4line Action.BUY_TO_CLOSE]⟩]).is_closed
      = some true := by
    simp [Position.is_closed, List.mapM, List.mapM.loop, hleg2]
  have h1 : posStep ⟨[], []⟩ (c4doc Action.SELL_TO_OPEN)
      = some ⟨[⟨Strategy.CUSTOM, [⟨"XS", [c4line Action.SELL_TO_OPEN]⟩]⟩], [("XS", 0)]⟩ := by
    rw [posStep_new ⟨[], []⟩ (c4doc Action.SELL_TO_OPEN) (c4line Action.SELL_TO_OPEN)
      (c4init Action.SELL_TO_OPEN) rfl]
    rfl
  have hopen2 : openFor
      ⟨[⟨Strategy.CUSTOM, [⟨"XS", [c4line Action.SELL_TO_OPEN]⟩]⟩], [("XS", 0)]⟩ "XS"
      = some (some 0) := by
    unfold openFor
    rw [show lookupMap [("XS", 0)] "XS" = some 0 from rfl]
    dsimp only
    rw [show ([⟨Strategy.CUSTOM, [⟨"XS", [c4line Action.SELL_TO_OPEN]⟩]⟩] :
        List Position).get? 0 = some ⟨Strategy.CUSTOM, [⟨"XS", [c4line Action.SELL_TO_OPEN]⟩]⟩
      from rfl]
    dsimp only
    rw [hcl1]
    rfl
  have h2 : posStep ⟨[⟨Strategy.CUSTOM, [⟨"XS", [c4line Action.SELL_TO_OPEN]⟩]⟩], [("XS", 0)]⟩
      (c4doc Action.BUY_TO_CLOSE)
      = some ⟨[⟨Strategy.CUSTOM,
          [⟨"XS", [c4line Action.SELL_TO_OPEN, c4line Action.BUY_TO_CLOSE]⟩]⟩], [("XS", 0)]⟩ := by
    rw [posStep_existing ⟨[⟨Strategy.CUSTOM, [⟨"XS", [c4line Action.SELL_TO_OPEN]⟩]⟩],
        [("XS", 0)]⟩ (c4doc Action.BUY_TO_CLOSE) (c4line Action.BUY_TO_CLOSE) 0
      ⟨Strategy.CUSTOM, [⟨"XS", [c4line Action.SELL_TO_OPEN]⟩]⟩
      (c4init Action.BUY_TO_CLOSE) hopen2 rfl]
    rfl
  have hopen3 : openFor ⟨[⟨Strategy.CUSTOM,
      [⟨"XS", [c4line Action.SELL_TO_OPEN, c4line Action.BUY_TO_CLOSE]⟩]⟩], [("XS", 0)]⟩ "XS"
      = some none :=
    openFor_closed _ "XS" 0 _ rfl rfl hcl2
  have h3 : posStep ⟨[⟨Strategy.CUSTOM,
      [⟨"XS", [c4line Action.SELL_TO_OPEN, c4line Action.BUY_TO_CLOSE]⟩]⟩], [("XS", 0)]⟩
      (c4doc Action.SELL_TO_OPEN)
      = some ⟨[⟨Strategy.CUSTOM,
          [⟨"XS", [c4line Action.SELL_TO_OPEN, c4line Action.BUY_TO_CLOSE]⟩]⟩,
          ⟨Strategy.CUSTOM, [⟨"XS", [c4line Action.SELL_TO_OPEN]⟩]⟩], [("XS", 1)]⟩ := by
    rw [posStep_new ⟨[⟨Strategy.CUSTOM,
        [⟨"XS", [c4line Action.SELL_TO_OPEN, c4line Action.BUY_TO_CLOSE]⟩]⟩], [("XS", 0)]⟩
      (c4doc Action.SELL_TO_OPEN) (c4line Action.SELL_TO_OPEN)
      (c4init Action.SELL_TO_OPEN) hopen3]
    rfl
  refine ⟨⟨Strategy.CUSTOM, [⟨"XS", [c4line Action.SELL_TO_OPEN, c4line Action.BUY_TO_CLOSE]⟩]⟩,
    ⟨Strategy.CUSTOM, [⟨"XS", [c4line Action.SELL_TO_OPEN]⟩]⟩, ?_, hcl2, hcl1,
    rfl, rfl, rfl, rfl⟩
  unfold get_positions
  simp [List.foldlM, h1, h2, h3, Option.bind]

/-- Witness for C4: the fresh-position step at the empty scan state. -/
theorem c4_witness :
    posStep ⟨[], []⟩ (c4doc Action.SELL_TO_OPEN)
      = some ⟨[] ++ [⟨Strategy.CUSTOM,
          [⟨(c4doc Action.SELL_TO_OPEN).symbol, [c4line Action.SELL_TO_OPEN]⟩]⟩],
        setMap [] (c4doc Action.SELL_TO_OPEN).symbol ([] : List Position).length⟩ :=
  c4_position_grouping.1 ⟨[], []⟩ (c4doc Action.SELL_TO_OPEN) (c4line Action.SELL_TO_OPEN)
    (c4init Action.SELL_TO_OPEN) rfl

end Optrack
